import Mathlib

/-!
Verification of the particle simulation stepping and replay engine: the
particle store (structure-of-arrays pool with swap-remove), the per-step
pipeline (emit, force, integrate, age and remove), the deterministic RNG
reseeding protocol, the snapshot/history ring buffer, and the playback
clock (play/pause/stepForward/stepBackward).

Modelling conventions of this shallow embedding:
* JS `number` values holding particle field data and simulation times are
  modelled by an arbitrary linearly ordered commutative ring `F`: the
  verified properties concern control flow, ordering, determinism and
  state equality, and the source arithmetic (`+`, `-`, `*`, `<=`) is
  deterministic, so any such `F` (in particular `ℚ`, which hosts every
  value the demos use) is a faithful carrier; concrete witness runs
  instantiate `F := ℤ` so they evaluate inside the kernel.
* RNG seeds are JS numbers that are always produced by integer expressions
  (`base + stepIndex * 0x9e3779b9`); they are modelled as integers (`ℤ`).
* The structure-of-arrays particle buffers (one `Float32Array` per field)
  are modelled as a single total map from row index to a record of the 11
  per-particle fields; every source operation acts on all field arrays at
  one index uniformly, so the two layouts are observationally identical.
  Indices at or beyond `count` hold stale data exactly as in the source.
* Methods that can throw (`rng`/`context` getters of the `Simulation`
  class) are modelled in the `Except String` monad.
* The source's `while` loops are modelled by structurally recursive
  functions taking an explicit iteration budget that provably bounds the
  loop's iteration count, so that concrete runs evaluate by `rfl`.
-/

namespace ParticleSim

/-- `seedForStep(base, stepIndex) = base + stepIndex * 0x9e3779b9`
(pure reseed function, `src/unnamed/part_017` lines 15-17). -/
def seedForStep (base : ℤ) (stepIndex : ℤ) : ℤ :=
  base + stepIndex * 0x9e3779b9

/-- The seed installed by the host RNG's `setState` in `src/src/main.ts`
(lines 63-65): `setState(state)` calls
`randomSeed(seedForStep(state.seed, state.stepIndex))`. -/
def mainSetStateSeed (seed : ℤ) (stepIndex : ℤ) : ℤ :=
  seedForStep seed stepIndex

/-- `ParticleDescriptor` (`src/src/core/types.ts`): `{position, velocity,
lifetime, color, size}`, with the `Vec2`/`RGBA` tuples flattened. -/
structure ParticleDescriptor (F : Type) where
  posX : F
  posY : F
  velX : F
  velY : F
  lifetime : F
  colR : F
  colG : F
  colB : F
  colA : F
  size : F
deriving DecidableEq, Repr

namespace AgePool

/-- One row of the age-based `ParticlePool`
(`src/src/core/particle-pool.ts`, class at lines 100-224): record of the 11
per-particle field buffers `px, py, vx, vy, age, lifetime, r, g, b, a, size`
at one index. -/
structure RowA (F : Type) where
  px : F
  py : F
  vx : F
  vy : F
  age : F
  lifetime : F
  r : F
  g : F
  b : F
  a : F
  size : F
deriving DecidableEq, Repr

/-- The age-based `ParticlePool` class (`src/src/core/particle-pool.ts`):
fixed `capacity`, live `count`, and the field buffers (as a row map). -/
structure ParticlePool (F : Type) where
  capacity : ℕ
  count : ℕ
  rows : ℕ → RowA F

variable {F : Type} [LinearOrderedCommRing F]

/-- The all-zero row: `Float32Array`s are zero-initialised. -/
def RowA.zero : RowA F := ⟨0, 0, 0, 0, 0, 0, 0, 0, 0, 0, 0⟩

/-- `new ParticlePool(capacity)`: count 0, zeroed buffers. -/
def ParticlePool.create (capacity : ℕ) : ParticlePool F :=
  ⟨capacity, 0, fun _ => RowA.zero⟩

/-- The row written by `spawn`/`spawnBatch` for a descriptor: position,
velocity, `age = 0`, lifetime, color, size. -/
def rowOfDesc (d : ParticleDescriptor F) : RowA F :=
  { px := d.posX, py := d.posY, vx := d.velX, vy := d.velY, age := 0,
    lifetime := d.lifetime, r := d.colR, g := d.colG, b := d.colB,
    a := d.colA, size := d.size }

/-- The body shared by `spawn` and each `spawnBatch` iteration: write the
descriptor's fields at index `count` and increment `count` (`const i =
this.count++; this.px[i] = ...`). -/
def ParticlePool.writeDesc (p : ParticlePool F) (d : ParticleDescriptor F) :
    ParticlePool F :=
  { p with count := p.count + 1,
           rows := Function.update p.rows p.count (rowOfDesc d) }

/-- `spawn(input)` (lines 130-145): if `count >= capacity` return `false`
without touching the pool, else append one particle and return `true`. -/
def ParticlePool.spawn (p : ParticlePool F) (input : ParticleDescriptor F) :
    ParticlePool F × Bool :=
  if p.capacity ≤ p.count then (p, false)
  else (p.writeDesc input, true)

/-- `spawnBatch(descriptors)` (lines 147-167): `n = min(capacity - count,
descriptors.length)` descriptors are appended; returns `n`. -/
def ParticlePool.spawnBatch (p : ParticlePool F)
    (descriptors : List (ParticleDescriptor F)) : ParticlePool F × ℕ :=
  let n := min (p.capacity - p.count) descriptors.length
  ((descriptors.take n).foldl ParticlePool.writeDesc p, n)

/-- `kill(index)` (lines 169-186).  The JS `index` is a number that may be
negative, hence `ℤ`.  Empty pool or out-of-range index: no-op.  Otherwise
copy the full field set of the last live row into `index` (unless `index`
is the last row) and decrement `count`. -/
def ParticlePool.kill (p : ParticlePool F) (index : ℤ) : ParticlePool F :=
  if p.count = 0 ∨ index < 0 ∨ (p.count : ℤ) ≤ index then p
  else
    let i := index.toNat
    let last := p.count - 1
    if i ≠ last then
      { p with count := p.count - 1,
               rows := Function.update p.rows i (p.rows last) }
    else { p with count := p.count - 1 }

/-- The live particles of a pool: the rows at indices `[0, count)`,
in index order. -/
def ParticlePool.liveList (p : ParticlePool F) : List (RowA F) :=
  (List.range p.count).map p.rows

/-- One call a client can make on the pool: the operations of the claim
"every sequence of spawn, spawnBatch, and kill operations". -/
inductive PoolOp (F : Type) where
  | spawn (d : ParticleDescriptor F)
  | spawnBatch (ds : List (ParticleDescriptor F))
  | kill (index : ℤ)

/-- Apply one operation, discarding the returned `bool`/count. -/
def ParticlePool.applyOp (p : ParticlePool F) : PoolOp F → ParticlePool F
  | .spawn d => (p.spawn d).1
  | .spawnBatch ds => (p.spawnBatch ds).1
  | .kill index => p.kill index

/-- Apply a sequence of operations in order. -/
def ParticlePool.applyOps (p : ParticlePool F) (ops : List (PoolOp F)) :
    ParticlePool F :=
  ops.foldl ParticlePool.applyOp p

/-- Reference list-based model of the pool contract (the live particles as
a plain list): spawn appends when below capacity, spawnBatch appends what
fits, kill swap-removes at an in-range index. -/
def refApplyOp (cap : ℕ) (l : List (RowA F)) : PoolOp F → List (RowA F)
  | .spawn d => if cap ≤ l.length then l else l ++ [rowOfDesc d]
  | .spawnBatch ds => l ++ (ds.take (cap - l.length)).map rowOfDesc
  | .kill index =>
      if index < 0 ∨ (l.length : ℤ) ≤ index then l
      else (l.set index.toNat (l.getD (l.length - 1) RowA.zero)).dropLast

/-- Reference run from an empty population. -/
def refRun (cap : ℕ) (ops : List (PoolOp F)) : List (RowA F) :=
  ops.foldl (refApplyOp cap) []

/-- A concrete descriptor used by witnesses. -/
def dA : ParticleDescriptor ℤ := ⟨1, 2, 3, 4, 10, 5, 6, 7, 8, 9⟩

/-- A second concrete descriptor used by witnesses. -/
def dB : ParticleDescriptor ℤ := ⟨11, 12, 13, 14, 20, 15, 16, 17, 18, 19⟩

/-- A concrete two-particle pool of capacity 4. -/
def poolTwo : ParticlePool ℤ :=
  (((ParticlePool.create 4).spawn dA).1.spawn dB).1

end AgePool

namespace TimePool

/-- One row of the emission-time-based `ParticlePool`
(`src/unnamed/part_012`, the variant used by the step pipeline in
`src/src/core/Force.ts` lines 199-253 and by the `Simulation` class):
field buffers `px, py, vx, vy, emissionTime, lifetime, r, g, b, a, size`. -/
structure RowE (F : Type) where
  px : F
  py : F
  vx : F
  vy : F
  emissionTime : F
  lifetime : F
  r : F
  g : F
  b : F
  a : F
  size : F
deriving DecidableEq, Repr

/-- The emission-time-based `ParticlePool` class (`src/unnamed/part_012`). -/
structure ParticlePool (F : Type) where
  capacity : ℕ
  count : ℕ
  rows : ℕ → RowE F

/-- `ParticlePoolSnapshot` (`src/unnamed/part_012` lines 5-18): `count`
plus a deep copy of the live region of every field buffer. -/
structure PoolSnapshot (F : Type) where
  count : ℕ
  rows : ℕ → RowE F

variable {F : Type} [LinearOrderedCommRing F]

/-- The all-zero row: `Float32Array`s are zero-initialised. -/
def RowE.zero : RowE F := ⟨0, 0, 0, 0, 0, 0, 0, 0, 0, 0, 0⟩

/-- `new ParticlePool(capacity)`: count 0, zeroed buffers. -/
def ParticlePool.create (capacity : ℕ) : ParticlePool F :=
  ⟨capacity, 0, fun _ => RowE.zero⟩

/-- The row written for a descriptor at emission time `emissionTime`. -/
def rowOfDesc (d : ParticleDescriptor F) (emissionTime : F) : RowE F :=
  { px := d.posX, py := d.posY, vx := d.velX, vy := d.velY,
    emissionTime := emissionTime, lifetime := d.lifetime,
    r := d.colR, g := d.colG, b := d.colB, a := d.colA, size := d.size }

/-- One `spawnBatch` iteration: write descriptor fields at `count` and
increment `count`. -/
def ParticlePool.writeDesc (emissionTime : F) (p : ParticlePool F)
    (d : ParticleDescriptor F) : ParticlePool F :=
  { p with count := p.count + 1,
           rows := Function.update p.rows p.count (rowOfDesc d emissionTime) }

/-- `spawnBatch(descriptors, emissionTime)` (`src/unnamed/part_012` lines
67-86): append `n = min(capacity - count, descriptors.length)` particles,
all stamped with `emissionTime`; return `n`. -/
def ParticlePool.spawnBatch (p : ParticlePool F)
    (descriptors : List (ParticleDescriptor F)) (emissionTime : F) :
    ParticlePool F × ℕ :=
  let n := min (p.capacity - p.count) descriptors.length
  ((descriptors.take n).foldl (ParticlePool.writeDesc emissionTime) p, n)

/-- `kill(index)` (`src/unnamed/part_012` lines 88-105).  Every caller in
the step pipeline passes a loop index `i >= 0`, so the index is `ℕ` here
and the JS `index < 0` check is vacuous. -/
def ParticlePool.kill (p : ParticlePool F) (index : ℕ) : ParticlePool F :=
  if p.count = 0 ∨ p.count ≤ index then p
  else if index ≠ p.count - 1 then
    { p with count := p.count - 1,
             rows := Function.update p.rows index (p.rows (p.count - 1)) }
  else { p with count := p.count - 1 }

/-- `snapshot()` (`src/unnamed/part_012` lines 107-123): `count` plus
`slice(0, count)` of every buffer (the model zero-fills past `count`,
which the source never reads back: `restore` reads at most `count`
entries).  This is also the content written by `snapshotInto(slot.pool)`
used by the `Simulation` class. -/
def ParticlePool.snapshot (p : ParticlePool F) : PoolSnapshot F :=
  { count := p.count,
    rows := fun i => if i < p.count then p.rows i else RowE.zero }

/-- `restore(snap)` (`src/unnamed/part_012` lines 125-141): deep-copy
`n = min(snap.count, capacity)` rows back in; `count := n`; rows past `n`
keep their stale contents (the JS `.set` writes only the first `n`
entries). -/
def ParticlePool.restore (p : ParticlePool F) (snap : PoolSnapshot F) :
    ParticlePool F :=
  let n := min snap.count p.capacity
  if n = 0 then { p with count := n }
  else
    { p with count := n,
             rows := fun i => if i < n then snap.rows i else p.rows i }

end TimePool

namespace Step

/-- `context.time` (`src/src/core/types.ts`): current step time and the
fixed delta. -/
structure StepTime (F : Type) where
  current : F
  delta : F

/-- Canvas bounds passed through the context. -/
structure Bounds (F : Type) where
  width : F
  height : F
deriving DecidableEq, Repr

/-- `Context` (`src/src/core/types.ts`): `{time, rng, bounds}`.  The
stateful step RNG (`random()` / `noise()`) is represented by `rngSeed`,
the seed installed by the last `setSeed`/`setStepSeed` call: within a
step every draw is a pure function of this seed and the draw position, so
the seed value determines every RNG-dependent output of the step. -/
structure Context (F : Type) where
  time : StepTime F
  rngSeed : ℤ
  bounds : Bounds F

/-- `ForceContext` (`src/unnamed/part_017` lines 21-28): live count, the
position/velocity buffers and `dt`. -/
structure ForceContext (F : Type) where
  count : ℕ
  px : ℕ → F
  py : ℕ → F
  vx : ℕ → F
  vy : ℕ → F
  dt : F

/-- The `Force` contract (`update(context)` then `apply(forceCtx)`,
`src/unnamed/part_017` lines 30-33).  A force mutates the velocity
buffers over the live range; for the deterministic forces in scope its
combined `update`+`apply` effect is a function of the step context and
the force context, modelled here as returning the new `vx`/`vy` maps. -/
structure Force (F : Type) where
  applyForce : Context F → ForceContext F → (ℕ → F) × (ℕ → F)

/-- The `Emitter` contract (`src/unnamed/part_017` lines 37-40): return
descriptors for the particles to emit this step. -/
structure Emitter (F : Type) where
  emit : Context F → List (ParticleDescriptor F)

/-- `Step.Result` (`src/src/core/Force.ts` lines 194-197): `added`
indices and the ordered `swaps` list of `(fromIndex, toIndex)` pairs. -/
structure Result where
  added : List ℕ
  swaps : List (ℕ × ℕ)

/-- Ghost record for the instrumented removal loop: one executed `kill`,
with the killed index, the last-live-row index at that moment, and the
row that was killed. -/
structure KillEv (F : Type) where
  i : ℕ
  last : ℕ
  row : TimePool.RowE F
deriving DecidableEq, Repr

variable {F : Type} [LinearOrderedCommRing F]

/-- Emission stage (`src/src/core/Force.ts` lines 209-214): each emitter's
descriptors are batch-spawned with `emissionTime = context.time.current`. -/
def emitStage (context : Context F) (pool : TimePool.ParticlePool F)
    (emitters : List (Emitter F)) : TimePool.ParticlePool F :=
  emitters.foldl
    (fun p e => (p.spawnBatch (e.emit context) context.time.current).1) pool

/-- Force stage (`src/src/core/Force.ts` lines 219-230): build the force
context over the current live range, then let each force update the
velocity buffers in place over that range, in list order. -/
def forceStage (context : Context F) (pool : TimePool.ParticlePool F)
    (forces : List (Force F)) : TimePool.ParticlePool F :=
  forces.foldl
    (fun p f =>
      let fc : ForceContext F :=
        { count := p.count, px := fun i => (p.rows i).px,
          py := fun i => (p.rows i).py, vx := fun i => (p.rows i).vx,
          vy := fun i => (p.rows i).vy, dt := context.time.delta }
      let nv := f.applyForce context fc
      { p with rows := fun i =>
          if i < p.count then
            { p.rows i with vx := nv.1 i, vy := nv.2 i }
          else p.rows i })
    pool

/-- Integration stage (`src/src/core/Force.ts` lines 232-235): explicit
Euler, `position += velocity * dt` for every live particle. -/
def integrateStage (pool : TimePool.ParticlePool F) (dt : F) :
    TimePool.ParticlePool F :=
  { pool with rows := fun i =>
      if i < pool.count then
        { pool.rows i with px := (pool.rows i).px + (pool.rows i).vx * dt,
                           py := (pool.rows i).py + (pool.rows i).vy * dt }
      else pool.rows i }

/-- Age-and-remove loop (`src/src/core/Force.ts` lines 238-250), a
backward scan.  The JS loop variable `i` (which reaches `-1` at exit) is
represented by `i1 = i + 1 : ℕ`; the first argument is an iteration
budget: every iteration strictly decreases `i1 + count`, so a budget of
`i1 + count` covers the whole loop (at budget 0 the exit condition
already holds on every call reachable with a sufficient budget).  A
particle is dead when `endTime - emissionTime >= lifetime`; a dead
particle that is not the last live row records `(last, i)` before
`kill(i)`; after a kill the slot is re-examined (`i` is kept) unless `i`
fell out of the live range. -/
def removeLoop (endTime : F) :
    ℕ → TimePool.ParticlePool F → ℕ → List (ℕ × ℕ) →
    TimePool.ParticlePool F × List (ℕ × ℕ)
  | 0, p, _, swaps => (p, swaps)
  | fuel + 1, p, i1, swaps =>
    if i1 = 0 then (p, swaps)
    else if p.count = 0 then (p, swaps)
    else
      let i := i1 - 1
      if (p.rows i).lifetime ≤ endTime - (p.rows i).emissionTime then
        let last := p.count - 1
        let swaps' := if i ≠ last then swaps ++ [(last, i)] else swaps
        let p' := p.kill i
        if p'.count ≤ i then removeLoop endTime fuel p' (i1 - 1) swaps'
        else removeLoop endTime fuel p' i1 swaps'
      else removeLoop endTime fuel p (i1 - 1) swaps

/-- The pool as it enters the removal stage: after emit, forces and
integration. -/
def preRemoval (context : Context F) (pool : TimePool.ParticlePool F)
    (forces : List (Force F)) (emitters : List (Emitter F)) :
    TimePool.ParticlePool F :=
  integrateStage (forceStage context (emitStage context pool emitters) forces)
    context.time.delta

/-- `run(context, pool, forces, emitters)` (`src/src/core/Force.ts` lines
199-253): emit, record `added`, apply forces, integrate, then the
backward removal scan from `i = pool.count - 1` with an empty `swaps`
accumulator. -/
def run (context : Context F) (pool : TimePool.ParticlePool F)
    (forces : List (Force F)) (emitters : List (Emitter F)) :
    TimePool.ParticlePool F × Result :=
  let countBeforeEmit := pool.count
  let p1 := emitStage context pool emitters
  let added := List.range' countBeforeEmit (p1.count - countBeforeEmit)
  let p3 := preRemoval context pool forces emitters
  let endTime := context.time.current + context.time.delta
  let pr := removeLoop endTime (p3.count + p3.count) p3 p3.count []
  (pr.1, { added := added, swaps := pr.2 })

/-- The removal loop instrumented with the ghost kill log (identical
control flow; records every executed `kill` instead of the `swaps`
pairs). -/
def removeLoopEv (endTime : F) :
    ℕ → TimePool.ParticlePool F → ℕ → List (KillEv F) →
    TimePool.ParticlePool F × List (KillEv F)
  | 0, p, _, evs => (p, evs)
  | fuel + 1, p, i1, evs =>
    if i1 = 0 then (p, evs)
    else if p.count = 0 then (p, evs)
    else
      let i := i1 - 1
      if (p.rows i).lifetime ≤ endTime - (p.rows i).emissionTime then
        let last := p.count - 1
        let evs' := evs ++ [⟨i, last, p.rows i⟩]
        let p' := p.kill i
        if p'.count ≤ i then removeLoopEv endTime fuel p' (i1 - 1) evs'
        else removeLoopEv endTime fuel p' i1 evs'
      else removeLoopEv endTime fuel p (i1 - 1) evs

/-- The ghost kill log of one `run` invocation: the removal scan of
`run`, instrumented, started from the same pre-removal pool. -/
def runKills (context : Context F) (pool : TimePool.ParticlePool F)
    (forces : List (Force F)) (emitters : List (Emitter F)) :
    List (KillEv F) :=
  let p3 := preRemoval context pool forces emitters
  let endTime := context.time.current + context.time.delta
  (removeLoopEv endTime (p3.count + p3.count) p3 p3.count []).2

/-- The shadow array of the claim: apply the ordered `(from, to)` pairs
to an index map, each pair copying entry `from` over entry `to`. -/
def applySwaps (swaps : List (ℕ × ℕ)) (shadow : ℕ → ℕ) : ℕ → ℕ :=
  swaps.foldl (fun s pr => Function.update s pr.2 (s pr.1)) shadow

/-- The per-step context the `Simulation` clock builds for step `k`:
`time.current = k * fixedDt`, `delta = fixedDt`, the RNG reseeded with
`seedForStep(baseSeed, k)` (`setStepSeed`, `src/src/renderer/types.ts`
lines 375-379). -/
def stepCtx (baseSeed : ℤ) (fixedDt : F) (bounds : Bounds F) (k : ℕ) :
    Context F :=
  { time := { current := (k : F) * fixedDt, delta := fixedDt },
    rngSeed := seedForStep baseSeed (k : ℤ), bounds := bounds }

/-- Run the step pipeline for `n` steps from a fixed initial pool, exactly
as the playing clock drives it (`Simulation.tick`). -/
def runSteps (baseSeed : ℤ) (fixedDt : F) (bounds : Bounds F)
    (forces : List (Force F)) (emitters : List (Emitter F))
    (pool : TimePool.ParticlePool F) : ℕ → TimePool.ParticlePool F
  | 0 => pool
  | n + 1 =>
      (run (stepCtx baseSeed fixedDt bounds n)
        (runSteps baseSeed fixedDt bounds forces emitters pool n)
        forces emitters).1

end Step

namespace Hist

/-- `HistorySnapshot`
(`src/src/lib/particle-system/core/history-store.ts` lines 5-9): step
index plus the deep-copied pool state.  `extensionSnapshots` is omitted:
every configuration verified here runs with no extensions, for which the
source stores the constant empty array. -/
structure HistorySnapshot (F : Type) where
  stepIndex : ℕ
  pool : TimePool.PoolSnapshot F

/-- The `HistoryStore` ring buffer (lines 27-84): `maxLength` pre-allocated
slots (a map accessed modulo `maxLength`), a monotone `writeIndex` and the
occupied `length`. -/
structure HistoryStore (F : Type) where
  maxLength : ℕ
  slots : ℕ → HistorySnapshot F
  writeIndex : ℕ
  length : ℕ

variable {F : Type} [LinearOrderedCommRing F]

/-- `createEmptyPoolSnapshot` content of a pre-allocated slot (lines
11-25): step index 0, zeroed buffers, count 0. -/
def emptySnapshot : HistorySnapshot F :=
  { stepIndex := 0,
    pool := { count := 0, rows := fun _ => TimePool.RowE.zero } }

/-- `new HistoryStore(maxLength, capacity)`: slots pre-filled with empty
snapshots. -/
def HistoryStore.create (maxLength : ℕ) : HistoryStore F :=
  { maxLength := maxLength, slots := fun _ => emptySnapshot,
    writeIndex := 0, length := 0 }

/-- The slot index visited at scan position `i` by `find` /
`findLatestNotAfter` (newest first):
`(writeIndex - 1 - i + maxLength * 2) % maxLength`.  The JS subtraction is
exact because the scan runs `i < length <= writeIndex`. -/
def HistoryStore.scanIdx (h : HistoryStore F) (i : ℕ) : ℕ :=
  (h.writeIndex - 1 - i + h.maxLength * 2) % h.maxLength

/-- The slots in scan order (newest to oldest). -/
def HistoryStore.scan (h : HistoryStore F) : List (HistorySnapshot F) :=
  (List.range h.length).map fun i => h.slots (h.scanIdx i)

/-- One committed push: `getNextSlot()` hands out
`slots[writeIndex % maxLength]`, the caller fills it (the simulation
deep-copies the pool into it via `snapshotInto`), and `commitPush()`
advances `writeIndex` and clamps `length` to `maxLength` (lines 43-52). -/
def HistoryStore.push (h : HistoryStore F) (snap : HistorySnapshot F) :
    HistoryStore F :=
  { h with slots := Function.update h.slots (h.writeIndex % h.maxLength) snap,
           writeIndex := h.writeIndex + 1,
           length := min (h.length + 1) h.maxLength }

/-- Push a whole list of snapshots in order. -/
def HistoryStore.pushAll (h : HistoryStore F) (l : List (HistorySnapshot F)) :
    HistoryStore F :=
  l.foldl HistoryStore.push h

/-- `find(stepIndex)` (lines 54-63): scan the occupied slots newest to
oldest and return the first slot whose `stepIndex` matches. -/
def HistoryStore.find (h : HistoryStore F) (stepIndex : ℕ) :
    Option (HistorySnapshot F) :=
  h.scan.find? fun s => s.stepIndex == stepIndex

/-- The fold body of `findLatestNotAfter` (lines 66-79): keep the best
(largest-`stepIndex`, earliest-scanned on ties) slot not after the
target. -/
def latestStepCandidate (targetStep : ℕ) (best : Option (HistorySnapshot F))
    (slot : HistorySnapshot F) : Option (HistorySnapshot F) :=
  if slot.stepIndex ≤ targetStep then
    match best with
    | none => some slot
    | some b => if b.stepIndex < slot.stepIndex then some slot else some b
  else best

/-- `findLatestNotAfter(targetStep)` (lines 65-80): the snapshot with the
largest `stepIndex <= targetStep`, or `none`. -/
def HistoryStore.findLatestNotAfter (h : HistoryStore F) (targetStep : ℕ) :
    Option (HistorySnapshot F) :=
  h.scan.foldl (latestStepCandidate targetStep) none

/-- `isEmpty()` (lines 82-84). -/
def HistoryStore.isEmpty (h : HistoryStore F) : Bool :=
  h.length == 0

/-- The `find` loop again, but returning the internal slot index `r` such
that the source's `find` returns the object `this.slots[r]` itself (the
stored slot, not a copy). -/
def HistoryStore.findSlotIdx (h : HistoryStore F) (stepIndex : ℕ) :
    Option ℕ :=
  ((List.range h.length).map h.scanIdx).find? fun r =>
    (h.slots r).stepIndex == stepIndex

/-- The effect, on the store, of a caller mutating (with `mutate`) the
snapshot object returned by `find`: since the source's `find` returns
`this.slots[r]` by reference, the mutation writes through to that slot. -/
def HistoryStore.writeThroughFind (h : HistoryStore F) (stepIndex : ℕ)
    (mutate : HistorySnapshot F → HistorySnapshot F) : HistoryStore F :=
  match h.findSlotIdx stepIndex with
  | none => h
  | some r =>
      { h with slots := Function.update h.slots r (mutate (h.slots r)) }

/-- A concrete snapshot with step index 0. -/
def snapA : HistorySnapshot ℤ :=
  { stepIndex := 0,
    pool := { count := 0, rows := fun _ => TimePool.RowE.zero } }

/-- A concrete snapshot with step index 1. -/
def snapB : HistorySnapshot ℤ :=
  { stepIndex := 1,
    pool := { count := 0, rows := fun _ => TimePool.RowE.zero } }

/-- A concrete snapshot with step index 0 and a one-particle pool. -/
def snapC : HistorySnapshot ℤ :=
  { stepIndex := 0,
    pool := { count := 1, rows := fun _ => TimePool.RowE.zero } }

/-- A caller-side mutation of a returned snapshot's pool buffer data
(keeps the step index). -/
def mutCount5 : HistorySnapshot ℤ → HistorySnapshot ℤ :=
  fun s => { s with pool := { s.pool with count := 5 } }

/-- A concrete one-slot store holding `snapC`. -/
def storeC8 : HistoryStore ℤ := (HistoryStore.create 1).push snapC

end Hist

namespace Sim

/-- The `Simulation` constructor configuration (`src/src/core/simulation.ts`
lines 47-61), restricted to the replay-relevant fields; `extensions` is
omitted (all configurations verified here pass none, and the constructor
filters to the active ones, here the empty list). -/
structure Config (F : Type) where
  capacity : ℕ
  forces : List (Step.Force F)
  emitters : List (Step.Emitter F)
  fixedDt : F
  maxHistory : ℕ
  historyInterval : ℕ
  baseSeed : ℤ

/-- The `Simulation` class state (`src/src/core/simulation.ts` lines
75-135).  `rngRef = some seed` models a configured RNG whose stream state
is the seed last installed by `setStepSeed`
(`src/src/renderer/types.ts` lines 375-379 wire the stream to
`baseSeed + stepIndex * 0x9e3779b9`). -/
structure Simulation (F : Type) where
  particles : TimePool.ParticlePool F
  forces : List (Step.Force F)
  emitters : List (Step.Emitter F)
  history : Hist.HistoryStore F
  baseSeed : ℤ
  rngRef : Option ℤ
  boundsRef : Option (Step.Bounds F)
  stepIndex : ℕ
  paused : Bool
  fixedDt : F
  historyInterval : ℕ

variable {F : Type} [LinearOrderedCommRing F]

/-- `new Simulation(config)`: fresh pool and history, step 0, paused,
RNG and bounds unconfigured. -/
def Simulation.create (cfg : Config F) : Simulation F :=
  { particles := TimePool.ParticlePool.create cfg.capacity,
    forces := cfg.forces, emitters := cfg.emitters,
    history := Hist.HistoryStore.create cfg.maxHistory,
    baseSeed := cfg.baseSeed, rngRef := none, boundsRef := none,
    stepIndex := 0, paused := true, fixedDt := cfg.fixedDt,
    historyInterval := cfg.historyInterval }

/-- `setRng(rng)` (lines 202-204): store the RNG reference; `seed0` is the
stream state the host-created RNG happens to hold when wired (it is
always overwritten by `setStepSeed` before any draw). -/
def Simulation.setRngRef (s : Simulation F) (seed0 : ℤ) : Simulation F :=
  { s with rngRef := some seed0 }

/-- `setBounds(bounds)` (lines 206-208). -/
def Simulation.setBoundsRef (s : Simulation F) (b : Step.Bounds F) :
    Simulation F :=
  { s with boundsRef := some b }

/-- `play()` (lines 292-294). -/
def Simulation.play (s : Simulation F) : Simulation F :=
  { s with paused := false }

/-- `pause()` (lines 296-298). -/
def Simulation.pause (s : Simulation F) : Simulation F :=
  { s with paused := true }

/-- `isPaused()` (lines 300-302). -/
def Simulation.isPaused (s : Simulation F) : Bool := s.paused

/-- Message of the `rng` getter's hard error (lines 264-271). -/
def rngErrorMsg : String :=
  "Simulation: setRng() or setContext() must be called first"

/-- Message of the `context` getter's hard error (lines 273-279). -/
def boundsErrorMsg : String :=
  "Simulation: setBounds() or setContext() must be called first"

/-- `this.rng.setStepSeed(stepIndex)`: the `rng` getter throws when the
RNG was never configured; otherwise the RNG stream is reseeded to
`seedForStep(baseSeed, stepIndex)` (`src/src/renderer/types.ts` lines
375-379). -/
def Simulation.setStepSeed (s : Simulation F) (stepIndex : ℕ) :
    Except String (Simulation F) :=
  match s.rngRef with
  | none => .error rngErrorMsg
  | some _ =>
      .ok { s with rngRef := some (seedForStep s.baseSeed (stepIndex : ℤ)) }

/-- `getTime()` (lines 260-262): `stepIndex * fixedDt`. -/
def Simulation.getTime (s : Simulation F) : F := (s.stepIndex : F) * s.fixedDt

/-- The `context` getter (lines 273-288): throws when bounds are missing;
building the context reads the `rng` getter, which throws when the RNG is
missing. -/
def Simulation.context (s : Simulation F) : Except String (Step.Context F) :=
  match s.boundsRef with
  | none => .error boundsErrorMsg
  | some b =>
      match s.rngRef with
      | none => .error rngErrorMsg
      | some seed =>
          .ok { time := { current := s.getTime, delta := s.fixedDt },
                rngSeed := seed, bounds := b }

/-- `pushSnapshot()` (lines 356-362): fill the next ring slot with the
current step index and a deep copy of the pool, then commit. -/
def Simulation.pushSnapshot (s : Simulation F) : Simulation F :=
  { s with history :=
      s.history.push ⟨s.stepIndex, s.particles.snapshot⟩ }

/-- `ensureInitialSnapshot()` (lines 351-354). -/
def Simulation.ensureInitialSnapshot (s : Simulation F) : Simulation F :=
  if s.history.isEmpty then s.pushSnapshot else s

/-- `tick()` (lines 304-317): reseed for the current step, run the step
pipeline, push a snapshot on the history interval, increment the step
index.  (Extension updates are omitted: no extensions are configured.) -/
def Simulation.tick (s : Simulation F) : Except String (Simulation F) := do
  let s ← s.setStepSeed s.stepIndex
  let ctx ← s.context
  let pr := Step.run ctx s.particles s.forces s.emitters
  let s := { s with particles := pr.1 }
  let s := if s.stepIndex % s.historyInterval = 0 then s.pushSnapshot else s
  .ok { s with stepIndex := s.stepIndex + 1 }

/-- `update()` (lines 319-323): no-op while paused, else ensure the
initial snapshot and tick once. -/
def Simulation.update (s : Simulation F) : Except String (Simulation F) :=
  if s.isPaused then .ok s
  else s.ensureInitialSnapshot.tick

/-- `restoreSnapshot(snap)` (lines 364-369): reseed the RNG for the
snapshot's step, restore the pool from the snapshot, set the step index. -/
def Simulation.restoreSnapshot (s : Simulation F)
    (snap : Hist.HistorySnapshot F) : Except String (Simulation F) := do
  let s ← s.setStepSeed snap.stepIndex
  let s := { s with particles := s.particles.restore snap.pool }
  .ok { s with stepIndex := snap.stepIndex }

/-- The `while (this.stepIndex < targetStep) this.tick()` loop of
`stepForward`/`stepBackward`.  `tick` increments `stepIndex` by exactly
one, so a budget of `targetStep - stepIndex` iterations covers the loop. -/
def Simulation.tickLoop : ℕ → Simulation F → ℕ → Except String (Simulation F)
  | 0, s, _ => .ok s
  | fuel + 1, s, targetStep =>
      if s.stepIndex < targetStep then do
        let s' ← s.tick
        Simulation.tickLoop fuel s' targetStep
      else .ok s

/-- `stepForward(n)` (lines 325-336): no-op unless paused; ensure the
initial snapshot, restore the newest snapshot at or before
`stepIndex + n` if any, then tick up to the target. -/
def Simulation.stepForward (s : Simulation F) (n : ℕ) :
    Except String (Simulation F) :=
  if ¬ s.isPaused then .ok s
  else
    let s := s.ensureInitialSnapshot
    let targetStep := s.stepIndex + n
    match s.history.findLatestNotAfter targetStep with
    | some snap =>
        (s.restoreSnapshot snap).bind fun s' =>
          Simulation.tickLoop (targetStep - s'.stepIndex) s' targetStep
    | none => Simulation.tickLoop (targetStep - s.stepIndex) s targetStep

/-- `stepBackward(n)` (lines 338-347): no-op unless paused;
`targetStep = max(0, stepIndex - n)` is the truncated subtraction; return
silently when no snapshot is at or before the target, else restore it and
tick up to the target. -/
def Simulation.stepBackward (s : Simulation F) (n : ℕ) :
    Except String (Simulation F) :=
  if ¬ s.isPaused then .ok s
  else
    let targetStep := s.stepIndex - n
    match s.history.findLatestNotAfter targetStep with
    | none => .ok s
    | some snap =>
        (s.restoreSnapshot snap).bind fun s' =>
          Simulation.tickLoop (targetStep - s'.stepIndex) s' targetStep

/-- A descriptor with a long lifetime, emitted once per step by the
scenario emitter. -/
def emitOneDesc : ParticleDescriptor ℤ := ⟨0, 0, 1, 1, 100, 1, 1, 1, 1, 2⟩

/-- Scenario configuration: capacity 4, no forces, one emitter that emits
one long-lived particle per step, `fixedDt = 1`, snapshot every step. -/
def cfgScenario : Config ℤ :=
  { capacity := 4, forces := [],
    emitters := [⟨fun _ => [emitOneDesc]⟩],
    fixedDt := 1, maxHistory := 600, historyInterval := 1, baseSeed := 0 }

/-- The scenario simulation, fully configured (`setRng`, `setBounds`). -/
def simReady : Simulation ℤ :=
  ((Simulation.create cfgScenario).setRngRef 0).setBoundsRef ⟨100, 100⟩

/-- Original run: play, then one `update()` — the state reached at step
`N = 1`. -/
def origRun : Except String (Simulation ℤ) := (simReady.play).update

/-- Replay: pause at step 1, `stepBackward(1)`, then `stepForward(1)`. -/
def replayRun : Except String (Simulation ℤ) := do
  let s ← origRun
  let s := s.pause
  let s ← s.stepBackward 1
  s.stepForward 1

/-- A concrete step context: time 0, `dt = 1`, seed 0. -/
def ctxStep0 : Step.Context ℤ :=
  { time := { current := 0, delta := 1 }, rngSeed := 0, bounds := ⟨100, 100⟩ }

/-- The scenario emitter list: one particle of `emitOneDesc` per step. -/
def emittersOne : List (Step.Emitter ℤ) := [⟨fun _ => [emitOneDesc]⟩]

/-- A descriptor whose particle expires within one `dt = 1` step. -/
def descDead : ParticleDescriptor ℤ := ⟨0, 0, 0, 0, 1, 1, 1, 1, 1, 1⟩

/-- A concrete pool holding one expiring and one long-lived particle. -/
def poolDeadAlive : TimePool.ParticlePool ℤ :=
  ((TimePool.ParticlePool.create 4).spawnBatch [descDead, emitOneDesc] 0).1

end Sim

end ParticleSim

namespace ParticleSim

namespace AgePool

variable {F : Type} [LinearOrderedCommRing F]

omit [LinearOrderedCommRing F] in
theorem liveList_length (p : ParticlePool F) : p.liveList.length = p.count := by
  simp [ParticlePool.liveList]

omit [LinearOrderedCommRing F] in
theorem liveList_getElem (p : ParticlePool F) (j : ℕ)
    (h : j < p.liveList.length) :
    p.liveList[j] = p.rows j := by
  simp [ParticlePool.liveList]

theorem liveList_writeDesc (p : ParticlePool F) (d : ParticleDescriptor F) :
    (p.writeDesc d).liveList = p.liveList ++ [rowOfDesc d] := by
  unfold ParticlePool.writeDesc ParticlePool.liveList
  simp only [List.range_succ, List.map_append, List.map_cons, List.map_nil]
  rw [Function.update_same]
  congr 1
  apply List.map_congr_left
  intro i hi
  exact Function.update_noteq (Nat.ne_of_lt (List.mem_range.mp hi)) _ _

theorem liveList_foldl_writeDesc (ds : List (ParticleDescriptor F))
    (p : ParticlePool F) :
    (ds.foldl ParticlePool.writeDesc p).liveList
      = p.liveList ++ ds.map rowOfDesc := by
  induction ds generalizing p with
  | nil => simp
  | cons d ds ih =>
      simp only [List.foldl_cons, List.map_cons]
      rw [ih, liveList_writeDesc]
      simp

theorem count_foldl_writeDesc (ds : List (ParticleDescriptor F))
    (p : ParticlePool F) :
    (ds.foldl ParticlePool.writeDesc p).count = p.count + ds.length := by
  induction ds generalizing p with
  | nil => simp
  | cons d ds ih =>
      simp only [List.foldl_cons, List.length_cons]
      rw [ih]
      simp [ParticlePool.writeDesc]
      omega

theorem capacity_foldl_writeDesc (ds : List (ParticleDescriptor F))
    (p : ParticlePool F) :
    (ds.foldl ParticlePool.writeDesc p).capacity = p.capacity := by
  induction ds generalizing p with
  | nil => simp
  | cons d ds ih => rw [List.foldl_cons, ih]; rfl

omit [LinearOrderedCommRing F] in
theorem take_min_length (ds : List (ParticleDescriptor F)) (s : ℕ) :
    ds.take (min s ds.length) = ds.take s := by
  rcases le_total s ds.length with h | h
  · rw [min_eq_left h]
  · rw [min_eq_right h, List.take_length, List.take_of_length_le h]

theorem liveList_kill (p : ParticlePool F) (index : ℤ) :
    (p.kill index).liveList
      = refApplyOp p.capacity p.liveList (.kill index) := by
  by_cases hno : p.count = 0 ∨ index < 0 ∨ (p.count : ℤ) ≤ index
  · rw [ParticlePool.kill, if_pos hno]
    have hcond : index < 0 ∨ ((p.liveList.length : ℕ) : ℤ) ≤ index := by
      rw [liveList_length]; omega
    simp only [refApplyOp]
    rw [if_pos hcond]
  · push_neg at hno
    obtain ⟨hc0, hi0, hlt⟩ := hno
    have hcond : ¬ (index < 0 ∨ ((p.liveList.length : ℕ) : ℤ) ≤ index) := by
      rw [liveList_length]; omega
    have hi : index.toNat < p.count := by omega
    have hlen : p.liveList.length = p.count := liveList_length p
    simp only [refApplyOp]
    rw [if_neg hcond]
    rw [ParticlePool.kill, if_neg (by omega)]
    have hgd : p.liveList.getD (p.liveList.length - 1) RowA.zero
        = p.rows (p.count - 1) := by
      rw [List.getD_eq_getElem _ _ (by omega), liveList_getElem _ _ (by omega),
        hlen]
    by_cases hlast : index.toNat ≠ p.count - 1
    · rw [if_pos hlast]
      apply List.ext_getElem
      · simp [liveList_length, hlen]
      · intro j h1 h2
        have hj : j < p.count - 1 := by
          simpa [liveList_length] using h1
        rw [liveList_getElem]
        rw [List.getElem_dropLast, List.getElem_set]
        dsimp only
        by_cases hji : index.toNat = j
        · rw [if_pos hji, hgd, ← hji, Function.update_same]
        · rw [if_neg hji, Function.update_noteq (fun h => hji h.symm),
            liveList_getElem _ _ (by omega)]
    · rw [if_neg hlast]
      push_neg at hlast
      apply List.ext_getElem
      · simp [liveList_length, hlen]
      · intro j h1 h2
        have hj : j < p.count - 1 := by
          simpa [liveList_length] using h1
        rw [liveList_getElem]
        rw [List.getElem_dropLast, List.getElem_set]
        dsimp only
        rw [if_neg (by omega : ¬ index.toNat = j),
          liveList_getElem _ _ (by omega)]

/-- Per-operation simulation between the pool and the reference list
model, together with the capacity invariant. -/
theorem applyOp_sim (p : ParticlePool F) (op : PoolOp F)
    (hle : p.count ≤ p.capacity) :
    (p.applyOp op).capacity = p.capacity ∧
    (p.applyOp op).count ≤ p.capacity ∧
    (p.applyOp op).liveList = refApplyOp p.capacity p.liveList op := by
  cases op with
  | spawn d =>
      simp only [ParticlePool.applyOp, ParticlePool.spawn, refApplyOp,
        liveList_length]
      by_cases hfull : p.capacity ≤ p.count
      · rw [if_pos hfull, if_pos hfull]
        exact ⟨rfl, hle, rfl⟩
      · rw [if_neg hfull, if_neg hfull]
        refine ⟨rfl, ?_, liveList_writeDesc p d⟩
        simp only [ParticlePool.writeDesc]
        omega
  | spawnBatch ds =>
      simp only [ParticlePool.applyOp, ParticlePool.spawnBatch, refApplyOp,
        liveList_length]
      refine ⟨capacity_foldl_writeDesc _ _, ?_, ?_⟩
      · rw [count_foldl_writeDesc]
        simp only [List.length_take]
        omega
      · rw [liveList_foldl_writeDesc, take_min_length]
  | kill index =>
      refine ⟨?_, ?_, liveList_kill p index⟩
      · simp only [ParticlePool.applyOp, ParticlePool.kill]
        split
        · rfl
        · split <;> rfl
      · simp only [ParticlePool.applyOp, ParticlePool.kill]
        split
        · exact hle
        · split
          all_goals simp only []
          all_goals omega

theorem applyOps_sim (ops : List (PoolOp F)) (p : ParticlePool F)
    (hle : p.count ≤ p.capacity) :
    (p.applyOps ops).capacity = p.capacity ∧
    (p.applyOps ops).count ≤ p.capacity ∧
    (p.applyOps ops).liveList
      = ops.foldl (refApplyOp p.capacity) p.liveList := by
  induction ops generalizing p with
  | nil => exact ⟨rfl, hle, rfl⟩
  | cons op ops ih =>
      obtain ⟨h1, h2, h3⟩ := applyOp_sim p op hle
      have hle' : (p.applyOp op).count ≤ (p.applyOp op).capacity := by
        rw [h1]; exact h2
      obtain ⟨g1, g2, g3⟩ := ih (p.applyOp op) hle'
      simp only [ParticlePool.applyOps, List.foldl_cons] at *
      refine ⟨by rw [g1, h1], by rw [h1] at g2; exact g2, ?_⟩
      rw [g3, h3, h1]

/-- C5: after any sequence of `spawn` / `spawnBatch` / `kill` operations on
a fresh pool, `0 <= count <= capacity` holds (it holds after every prefix,
each prefix being an instance of `ops`), the live rows at indices
`[0, count)` are exactly the particles of the reference list-based model,
and every `spawnBatch` call adds exactly `min(capacity - count,
descriptors.length) <= capacity - count` entries, returning how many were
added. -/
theorem pool_sequence_invariants (cap : ℕ) (ops : List (PoolOp F)) :
    ((((ParticlePool.create cap : ParticlePool F).applyOps ops).count ≤ cap) ∧
     ((ParticlePool.create cap : ParticlePool F).applyOps ops).liveList
       = refRun cap ops) ∧
    ∀ (q : ParticlePool F) (ds : List (ParticleDescriptor F)),
      (q.spawnBatch ds).2 = min (q.capacity - q.count) ds.length ∧
      (q.spawnBatch ds).2 ≤ q.capacity - q.count ∧
      (q.spawnBatch ds).1.count = q.count + (q.spawnBatch ds).2 := by
  constructor
  · obtain ⟨h1, h2, h3⟩ :=
      applyOps_sim ops (ParticlePool.create cap : ParticlePool F)
        (Nat.zero_le _)
    refine ⟨h2, ?_⟩
    rw [h3]
    rfl
  · intro q ds
    refine ⟨rfl, min_le_left _ _, ?_⟩
    simp only [ParticlePool.spawnBatch]
    rw [count_foldl_writeDesc]
    congr 1
    simp only [List.length_take]
    omega

omit [LinearOrderedCommRing F] in
/-- C6: `kill(index)` with `index` a live, non-last row copies the last
live row's full field set into `index` and decrements `count` by one
(leaving every other row untouched); `kill(index)` with `index` outside
`[0, count)` (including negative) or on an empty pool is a no-op that
leaves the pool completely unchanged, not an error. -/
theorem kill_swap_remove_spec (p : ParticlePool F) (index : ℤ) :
    (0 ≤ index → index.toNat < p.count → index.toNat ≠ p.count - 1 →
      (p.kill index).count = p.count - 1 ∧
      (p.kill index).rows index.toNat = p.rows (p.count - 1) ∧
      ∀ j, j ≠ index.toNat → (p.kill index).rows j = p.rows j) ∧
    (p.count = 0 ∨ index < 0 ∨ (p.count : ℤ) ≤ index → p.kill index = p) := by
  constructor
  · intro h0 hlt hne
    rw [ParticlePool.kill, if_neg (by omega)]
    rw [if_pos hne]
    refine ⟨rfl, ?_, ?_⟩
    · dsimp only
      rw [Function.update_same]
    · intro j hj
      dsimp only
      rw [Function.update_noteq hj]
  · intro h
    rw [ParticlePool.kill, if_pos h]

theorem kill_swap_remove_spec_witness :
    ((poolTwo.kill 0).count = poolTwo.count - 1 ∧
     (poolTwo.kill 0).rows 0 = poolTwo.rows 1) ∧
    poolTwo.kill 5 = poolTwo := by
  refine ⟨⟨?_, ?_⟩, ?_⟩
  · exact ((kill_swap_remove_spec poolTwo 0).1 (by decide) (by decide)
      (by decide)).1
  · exact ((kill_swap_remove_spec poolTwo 0).1 (by decide) (by decide)
      (by decide)).2.1
  · exact (kill_swap_remove_spec poolTwo 5).2 (by decide)

end AgePool

namespace TimePool

variable {F : Type} [LinearOrderedCommRing F]

omit [LinearOrderedCommRing F] in
theorem kill_of_le (p : ParticlePool F) (i : ℕ) (h : p.count ≤ i) :
    p.kill i = p := by
  rw [ParticlePool.kill, if_pos (Or.inr h)]

omit [LinearOrderedCommRing F] in
theorem kill_count_of_lt (p : ParticlePool F) (i : ℕ) (h : i < p.count) :
    (p.kill i).count = p.count - 1 := by
  rw [ParticlePool.kill, if_neg (by omega)]
  split <;> rfl

omit [LinearOrderedCommRing F] in
theorem kill_capacity (p : ParticlePool F) (i : ℕ) :
    (p.kill i).capacity = p.capacity := by
  rw [ParticlePool.kill]
  split
  · rfl
  · split <;> rfl

omit [LinearOrderedCommRing F] in
theorem kill_rows_of_lt (p : ParticlePool F) (i : ℕ) (h : i < p.count)
    (j : ℕ) (hj : j < p.count - 1) :
    (p.kill i).rows j
      = if j = i then p.rows (p.count - 1) else p.rows j := by
  rw [ParticlePool.kill, if_neg (by omega)]
  by_cases hlast : i ≠ p.count - 1
  · rw [if_pos hlast]
    dsimp only
    by_cases hji : j = i
    · rw [if_pos hji, hji, Function.update_same]
    · rw [if_neg hji, Function.update_noteq hji]
  · rw [if_neg hlast]
    push_neg at hlast
    rw [if_neg (by omega : ¬ j = i)]

end TimePool

namespace Step

variable {F : Type} [LinearOrderedCommRing F]

omit [LinearOrderedCommRing F] in
theorem applySwaps_append (l : List (ℕ × ℕ)) (pr : ℕ × ℕ) (f : ℕ → ℕ) :
    applySwaps (l ++ [pr]) f
      = Function.update (applySwaps l f) pr.2 (applySwaps l f pr.1) := by
  simp [applySwaps, List.foldl_append]

/-- Master invariant of the backward removal scan: relative to a fixed
origin pool `P` tracked through the accumulated swaps, the loop keeps the
count bounded, maps every live row through the shadow array, and leaves
only non-expired rows behind the scan front. -/
theorem removeLoop_master (endTime : F) (P : TimePool.ParticlePool F) :
    ∀ (fuel : ℕ) (p : TimePool.ParticlePool F) (i1 : ℕ) (swAcc : List (ℕ × ℕ)),
      i1 ≤ p.count →
      (∀ j, j < p.count → p.rows j = P.rows (applySwaps swAcc id j)) →
      (∀ j, i1 ≤ j → j < p.count →
        ¬ ((p.rows j).lifetime ≤ endTime - (p.rows j).emissionTime)) →
      i1 + p.count ≤ fuel →
      (removeLoop endTime fuel p i1 swAcc).1.count ≤ p.count ∧
      (removeLoop endTime fuel p i1 swAcc).1.capacity = p.capacity ∧
      (∀ j, j < (removeLoop endTime fuel p i1 swAcc).1.count →
        (removeLoop endTime fuel p i1 swAcc).1.rows j
          = P.rows (applySwaps (removeLoop endTime fuel p i1 swAcc).2 id j)) ∧
      (∀ j, j < (removeLoop endTime fuel p i1 swAcc).1.count →
        ¬ (((removeLoop endTime fuel p i1 swAcc).1.rows j).lifetime
            ≤ endTime
              - ((removeLoop endTime fuel p i1 swAcc).1.rows j).emissionTime)) := by
  intro fuel
  induction fuel with
  | zero =>
      intro p i1 swAcc h1 h2 h3 hf
      have hc : p.count = 0 := by omega
      simp only [removeLoop]
      exact ⟨le_refl _, by trivial, fun j hj => absurd hj (by omega),
        fun j hj => absurd hj (by omega)⟩
  | succ fuel ih =>
      intro p i1 swAcc h1 h2 h3 hf
      simp only [removeLoop]
      by_cases hi1 : i1 = 0
      · rw [if_pos hi1]
        exact ⟨le_refl _, by trivial, h2, fun j hj => h3 j (by omega) hj⟩
      · rw [if_neg hi1]
        by_cases hc0 : p.count = 0
        · rw [if_pos hc0]
          exact ⟨le_refl _, by trivial, h2, fun j hj => absurd hj (by omega)⟩
        · rw [if_neg hc0]
          by_cases hdead : (p.rows (i1 - 1)).lifetime
              ≤ endTime - (p.rows (i1 - 1)).emissionTime
          · rw [if_pos hdead]
            have hilt : i1 - 1 < p.count := by omega
            have hkc : (p.kill (i1 - 1)).count = p.count - 1 :=
              TimePool.kill_count_of_lt p (i1 - 1) hilt
            by_cases hbr : (p.kill (i1 - 1)).count ≤ i1 - 1
            · rw [if_pos hbr]
              have hlast : i1 - 1 = p.count - 1 := by omega
              rw [if_neg (by omega : ¬ (i1 - 1 ≠ p.count - 1))]
              have IH := ih (p.kill (i1 - 1)) (i1 - 1) swAcc
                (by omega)
                (fun j hj => by
                  rw [TimePool.kill_rows_of_lt p (i1 - 1) hilt j (by omega),
                    if_neg (by omega : ¬ j = i1 - 1)]
                  exact h2 j (by omega))
                (fun j hj1 hj2 => by omega)
                (by omega)
              refine ⟨by omega, ?_, IH.2.2.1, IH.2.2.2⟩
              rw [IH.2.1, TimePool.kill_capacity]
            · rw [if_neg hbr]
              have hlt : i1 - 1 < p.count - 1 := by omega
              rw [if_pos (by omega : i1 - 1 ≠ p.count - 1)]
              have IH := ih (p.kill (i1 - 1)) i1
                (swAcc ++ [(p.count - 1, i1 - 1)])
                (by omega)
                (fun j hj => by
                  rw [TimePool.kill_rows_of_lt p (i1 - 1) hilt j (by omega)]
                  rw [applySwaps_append]
                  by_cases hji : j = i1 - 1
                  · rw [if_pos hji, hji, Function.update_same]
                    exact h2 (p.count - 1) (by omega)
                  · rw [if_neg hji, Function.update_noteq hji]
                    exact h2 j (by omega))
                (fun j hj1 hj2 => by
                  rw [TimePool.kill_rows_of_lt p (i1 - 1) hilt j (by omega),
                    if_neg (by omega : ¬ j = i1 - 1)]
                  exact h3 j (by omega) (by omega))
                (by omega)
              refine ⟨by omega, ?_, IH.2.2.1, IH.2.2.2⟩
              rw [IH.2.1, TimePool.kill_capacity]
          · rw [if_neg hdead]
            have IH := ih p (i1 - 1) swAcc (by omega) h2
              (fun j hj1 hj2 => by
                by_cases hji : j = i1 - 1
                · rw [hji]; exact hdead
                · exact h3 j (by omega) hj2)
              (by omega)
            exact IH

/-- The swaps accumulator is write-only: a prefix of the accumulator is
carried through the loop untouched. -/
theorem removeLoop_acc (endTime : F) :
    ∀ (fuel : ℕ) (p : TimePool.ParticlePool F) (i1 : ℕ)
      (sw1 sw2 : List (ℕ × ℕ)),
      (removeLoop endTime fuel p i1 (sw1 ++ sw2)).1
        = (removeLoop endTime fuel p i1 sw2).1 ∧
      (removeLoop endTime fuel p i1 (sw1 ++ sw2)).2
        = sw1 ++ (removeLoop endTime fuel p i1 sw2).2 := by
  intro fuel
  induction fuel with
  | zero => intro p i1 sw1 sw2; simp [removeLoop]
  | succ fuel ih =>
      intro p i1 sw1 sw2
      simp only [removeLoop]
      by_cases hi1 : i1 = 0
      · simp only [if_pos hi1]; exact ⟨by trivial, by trivial⟩
      · simp only [if_neg hi1]
        by_cases hc0 : p.count = 0
        · simp only [if_pos hc0]; exact ⟨by trivial, by trivial⟩
        · simp only [if_neg hc0]
          by_cases hdead : (p.rows (i1 - 1)).lifetime
              ≤ endTime - (p.rows (i1 - 1)).emissionTime
          · simp only [if_pos hdead]
            by_cases hlast : i1 - 1 ≠ p.count - 1
            · simp only [if_pos hlast]
              simp only [List.append_assoc]
              by_cases hbr : (p.kill (i1 - 1)).count ≤ i1 - 1
              · simp only [if_pos hbr]
                exact ih _ _ sw1 (sw2 ++ [(p.count - 1, i1 - 1)])
              · simp only [if_neg hbr]
                exact ih _ _ sw1 (sw2 ++ [(p.count - 1, i1 - 1)])
            · simp only [if_neg hlast]
              by_cases hbr : (p.kill (i1 - 1)).count ≤ i1 - 1
              · simp only [if_pos hbr]
                exact ih _ _ sw1 sw2
              · simp only [if_neg hbr]
                exact ih _ _ sw1 sw2
          · simp only [if_neg hdead]
            exact ih _ _ sw1 sw2

/-- The kill-log accumulator of the instrumented loop is write-only. -/
theorem removeLoopEv_acc (endTime : F) :
    ∀ (fuel : ℕ) (p : TimePool.ParticlePool F) (i1 : ℕ)
      (ev1 ev2 : List (KillEv F)),
      (removeLoopEv endTime fuel p i1 (ev1 ++ ev2)).1
        = (removeLoopEv endTime fuel p i1 ev2).1 ∧
      (removeLoopEv endTime fuel p i1 (ev1 ++ ev2)).2
        = ev1 ++ (removeLoopEv endTime fuel p i1 ev2).2 := by
  intro fuel
  induction fuel with
  | zero => intro p i1 ev1 ev2; simp [removeLoopEv]
  | succ fuel ih =>
      intro p i1 ev1 ev2
      simp only [removeLoopEv]
      by_cases hi1 : i1 = 0
      · simp only [if_pos hi1]; exact ⟨by trivial, by trivial⟩
      · simp only [if_neg hi1]
        by_cases hc0 : p.count = 0
        · simp only [if_pos hc0]; exact ⟨by trivial, by trivial⟩
        · simp only [if_neg hc0]
          by_cases hdead : (p.rows (i1 - 1)).lifetime
              ≤ endTime - (p.rows (i1 - 1)).emissionTime
          · simp only [if_pos hdead]
            simp only [List.append_assoc]
            by_cases hbr : (p.kill (i1 - 1)).count ≤ i1 - 1
            · simp only [if_pos hbr]
              exact ih _ _ ev1 (ev2 ++ [⟨i1 - 1, p.count - 1, p.rows (i1 - 1)⟩])
            · simp only [if_neg hbr]
              exact ih _ _ ev1 (ev2 ++ [⟨i1 - 1, p.count - 1, p.rows (i1 - 1)⟩])
          · simp only [if_neg hdead]
            exact ih _ _ ev1 ev2

/-- The `swaps` list of the removal loop is exactly the instrumented kill
log filtered to the kills at a non-last index, each mapped to the
`(last, killed)` pair; the two loops traverse the same pool states. -/
theorem removeLoop_kills (endTime : F) :
    ∀ (fuel : ℕ) (p : TimePool.ParticlePool F) (i1 : ℕ),
      (removeLoopEv endTime fuel p i1 []).1
        = (removeLoop endTime fuel p i1 []).1 ∧
      (removeLoop endTime fuel p i1 []).2
        = ((removeLoopEv endTime fuel p i1 []).2.filter
            fun e => e.i != e.last).map fun e => (e.last, e.i) := by
  intro fuel
  induction fuel with
  | zero => intro p i1; simp [removeLoop, removeLoopEv]
  | succ fuel ih =>
      intro p i1
      simp only [removeLoop, removeLoopEv]
      by_cases hi1 : i1 = 0
      · simp only [if_pos hi1]; exact ⟨by trivial, by trivial⟩
      · simp only [if_neg hi1]
        by_cases hc0 : p.count = 0
        · simp only [if_pos hc0]; exact ⟨by trivial, by trivial⟩
        · simp only [if_neg hc0]
          by_cases hdead : (p.rows (i1 - 1)).lifetime
              ≤ endTime - (p.rows (i1 - 1)).emissionTime
          · simp only [if_pos hdead]
            simp only [List.nil_append]
            have hsw := removeLoop_acc endTime fuel
            have hev := removeLoopEv_acc endTime fuel
            by_cases hlast : i1 - 1 ≠ p.count - 1
            · simp only [if_pos hlast]
              by_cases hbr : (p.kill (i1 - 1)).count ≤ i1 - 1
              · simp only [if_pos hbr]
                obtain ⟨e1, e2⟩ := hev (p.kill (i1 - 1)) (i1 - 1)
                  [⟨i1 - 1, p.count - 1, p.rows (i1 - 1)⟩] []
                obtain ⟨s1, s2⟩ := hsw (p.kill (i1 - 1)) (i1 - 1)
                  [(p.count - 1, i1 - 1)] []
                simp only [List.append_nil] at e1 e2 s1 s2
                rw [e1, e2, s1, s2]
                obtain ⟨q1, q2⟩ := ih (p.kill (i1 - 1)) (i1 - 1)
                refine ⟨q1, ?_⟩
                rw [q2]
                simp [hlast]
              · simp only [if_neg hbr]
                obtain ⟨e1, e2⟩ := hev (p.kill (i1 - 1)) i1
                  [⟨i1 - 1, p.count - 1, p.rows (i1 - 1)⟩] []
                obtain ⟨s1, s2⟩ := hsw (p.kill (i1 - 1)) i1
                  [(p.count - 1, i1 - 1)] []
                simp only [List.append_nil] at e1 e2 s1 s2
                rw [e1, e2, s1, s2]
                obtain ⟨q1, q2⟩ := ih (p.kill (i1 - 1)) i1
                refine ⟨q1, ?_⟩
                rw [q2]
                simp [hlast]
            · simp only [if_neg hlast]
              push_neg at hlast
              by_cases hbr : (p.kill (i1 - 1)).count ≤ i1 - 1
              · simp only [if_pos hbr]
                obtain ⟨e1, e2⟩ := hev (p.kill (i1 - 1)) (i1 - 1)
                  [⟨i1 - 1, p.count - 1, p.rows (i1 - 1)⟩] []
                simp only [List.append_nil] at e1 e2
                rw [e1, e2]
                obtain ⟨q1, q2⟩ := ih (p.kill (i1 - 1)) (i1 - 1)
                refine ⟨q1, ?_⟩
                rw [q2]
                simp [hlast]
              · simp only [if_neg hbr]
                obtain ⟨e1, e2⟩ := hev (p.kill (i1 - 1)) i1
                  [⟨i1 - 1, p.count - 1, p.rows (i1 - 1)⟩] []
                simp only [List.append_nil] at e1 e2
                rw [e1, e2]
                obtain ⟨q1, q2⟩ := ih (p.kill (i1 - 1)) i1
                refine ⟨q1, ?_⟩
                rw [q2]
                simp [hlast]
          · simp only [if_neg hdead]
            exact ih p (i1 - 1)

/-- Every entry of the instrumented kill log records an expired row
(`endTime - emissionTime >= lifetime` held when it was killed) at an
index within the live range (`i <= last`). -/
theorem removeLoopEv_dead (endTime : F) :
    ∀ (fuel : ℕ) (p : TimePool.ParticlePool F) (i1 : ℕ), i1 ≤ p.count →
      ∀ e ∈ (removeLoopEv endTime fuel p i1 []).2,
        (e.row.lifetime ≤ endTime - e.row.emissionTime) ∧ e.i ≤ e.last := by
  intro fuel
  induction fuel with
  | zero => intro p i1 h1 e he; simp [removeLoopEv] at he
  | succ fuel ih =>
      intro p i1 h1 e he
      simp only [removeLoopEv] at he
      by_cases hi1 : i1 = 0
      · simp only [if_pos hi1] at he; simp at he
      · simp only [if_neg hi1] at he
        by_cases hc0 : p.count = 0
        · simp only [if_pos hc0] at he; simp at he
        · simp only [if_neg hc0] at he
          by_cases hdead : (p.rows (i1 - 1)).lifetime
              ≤ endTime - (p.rows (i1 - 1)).emissionTime
          · simp only [if_pos hdead] at he
            simp only [List.nil_append] at he
            have hilt : i1 - 1 < p.count := by omega
            have hkc : (p.kill (i1 - 1)).count = p.count - 1 :=
              TimePool.kill_count_of_lt p (i1 - 1) hilt
            by_cases hbr : (p.kill (i1 - 1)).count ≤ i1 - 1
            · simp only [if_pos hbr] at he
              obtain ⟨e1, e2⟩ := removeLoopEv_acc endTime fuel
                (p.kill (i1 - 1)) (i1 - 1)
                [⟨i1 - 1, p.count - 1, p.rows (i1 - 1)⟩] []
              simp only [List.append_nil] at e2
              rw [e2] at he
              rcases List.mem_append.mp he with hmem | hmem
              · simp at hmem
                subst hmem
                exact ⟨hdead, show i1 - 1 ≤ p.count - 1 by omega⟩
              · exact ih (p.kill (i1 - 1)) (i1 - 1) (by omega) e hmem
            · simp only [if_neg hbr] at he
              obtain ⟨e1, e2⟩ := removeLoopEv_acc endTime fuel
                (p.kill (i1 - 1)) i1
                [⟨i1 - 1, p.count - 1, p.rows (i1 - 1)⟩] []
              simp only [List.append_nil] at e2
              rw [e2] at he
              rcases List.mem_append.mp he with hmem | hmem
              · simp at hmem
                subst hmem
                exact ⟨hdead, show i1 - 1 ≤ p.count - 1 by omega⟩
              · exact ih (p.kill (i1 - 1)) i1 (by omega) e hmem
          · simp only [if_neg hdead] at he
            exact ih p (i1 - 1) (by omega) e he

end Step

namespace Hist

variable {F : Type}

theorem scan_length (h : HistoryStore F) : h.scan.length = h.length := by
  simp [HistoryStore.scan]

theorem scan_getElem (h : HistoryStore F) (i : ℕ) (hi : i < h.scan.length) :
    h.scan[i] = h.slots (h.scanIdx i) := by
  simp [HistoryStore.scan]

/-- Pushing prepends the new snapshot to the newest-first scan, clamped to
the ring size. -/
theorem scan_push (h : HistoryStore F) (snap : HistorySnapshot F)
    (hM : 1 ≤ h.maxLength) (hlen : h.length ≤ h.maxLength)
    (hwl : h.length ≤ h.writeIndex) :
    (h.push snap).scan = (snap :: h.scan).take h.maxLength := by
  apply List.ext_getElem
  · simp only [scan_length, HistoryStore.push, List.length_take,
      List.length_cons]
    omega
  · intro i h1 h2
    have hiL : i < min (h.length + 1) h.maxLength := by
      simpa [scan_length, HistoryStore.push] using h1
    have hiL1 : i < h.length + 1 := (lt_min_iff.mp hiL).1
    have hiL2 : i < h.maxLength := (lt_min_iff.mp hiL).2
    rw [scan_getElem, List.getElem_take]
    cases i with
    | zero =>
      have hidx : (h.push snap).scanIdx 0 = h.writeIndex % h.maxLength := by
        simp only [HistoryStore.scanIdx, HistoryStore.push]
        have : h.writeIndex + 1 - 1 - 0 = h.writeIndex := by omega
        rw [this, Nat.add_mul_mod_self_left]
      rw [hidx]
      simp [HistoryStore.push, Function.update_same]
    | succ i' =>
      have hiw : i' + 1 ≤ h.writeIndex := by omega
      have hidx : (h.push snap).scanIdx (i' + 1)
          = (h.writeIndex - (i' + 1)) % h.maxLength := by
        simp only [HistoryStore.scanIdx, HistoryStore.push]
        have : h.writeIndex + 1 - 1 - (i' + 1) = h.writeIndex - (i' + 1) := by
          omega
        rw [this, Nat.add_mul_mod_self_left]
      have hne : (h.writeIndex - (i' + 1)) % h.maxLength
          ≠ h.writeIndex % h.maxLength := by
        intro hcontra
        have hmeq : h.writeIndex - (i' + 1)
            ≡ h.writeIndex [MOD h.maxLength] := hcontra
        have hdvd : h.maxLength ∣ h.writeIndex - (h.writeIndex - (i' + 1)) :=
          (Nat.modEq_iff_dvd' (by omega)).mp hmeq
        have hieq : h.writeIndex - (h.writeIndex - (i' + 1)) = i' + 1 := by
          omega
        rw [hieq] at hdvd
        have := Nat.le_of_dvd (by omega) hdvd
        omega
      have hslot : (h.push snap).slots ((h.push snap).scanIdx (i' + 1))
          = h.slots ((h.writeIndex - (i' + 1)) % h.maxLength) := by
        rw [hidx]
        simp only [HistoryStore.push]
        rw [Function.update_noteq hne]
      rw [hslot]
      rw [List.getElem_cons_succ]
      rw [scan_getElem _ _ (by rw [scan_length]; omega)]
      simp only [HistoryStore.scanIdx]
      rw [Nat.add_mul_mod_self_left]
      have harg : h.writeIndex - 1 - i' = h.writeIndex - (i' + 1) := by omega
      rw [harg]

variable [LinearOrderedCommRing F]

/-- State of a store after pushing `l` snapshots into a fresh ring of
size `M >= 1`: the scan holds the newest `M` pushes, newest first. -/
theorem pushAll_props (M : ℕ) (hM : 1 ≤ M) (l : List (HistorySnapshot F)) :
    ((HistoryStore.create M : HistoryStore F).pushAll l).maxLength = M ∧
    ((HistoryStore.create M : HistoryStore F).pushAll l).writeIndex
      = l.length ∧
    ((HistoryStore.create M : HistoryStore F).pushAll l).length
      = min l.length M ∧
    ((HistoryStore.create M : HistoryStore F).pushAll l).scan
      = l.reverse.take M := by
  induction l using List.reverseRecOn with
  | nil =>
      refine ⟨rfl, rfl, by simp [HistoryStore.pushAll, HistoryStore.create], ?_⟩
      simp [HistoryStore.pushAll, HistoryStore.scan, HistoryStore.create]
  | append_singleton l a ih =>
      obtain ⟨g1, g2, g3, g4⟩ := ih
      have hstep : (HistoryStore.create M : HistoryStore F).pushAll (l ++ [a])
          = ((HistoryStore.create M : HistoryStore F).pushAll l).push a := by
        simp [HistoryStore.pushAll]
      rw [hstep]
      refine ⟨g1, ?_, ?_, ?_⟩
      · simp only [HistoryStore.push, g2, List.length_append,
          List.length_singleton]
      · show min (((HistoryStore.create M : HistoryStore F).pushAll l).length
              + 1)
            ((HistoryStore.create M : HistoryStore F).pushAll l).maxLength
          = min (l ++ [a]).length M
        rw [g3, g1, List.length_append]
        simp only [List.length_singleton, Nat.min_def]
        split_ifs <;> omega
      · rw [scan_push _ _ (by rw [g1]; exact hM)
          (by rw [g3, g1]; exact min_le_right _ _)
          (by rw [g3, g2]; exact min_le_left _ _)]
        rw [g1, g4, List.reverse_append, List.reverse_singleton]
        simp only [List.singleton_append]
        rw [List.take_cons (by omega : 0 < M), List.take_cons (by omega : 0 < M),
          List.take_take]
        rw [min_eq_left (Nat.sub_le _ _)]

omit [LinearOrderedCommRing F] in
/-- On a list of snapshots with pairwise distinct step indices, the
newest-first linear search returns the member with the searched index. -/
theorem find?_stepIndex_of_mem (xs : List (HistorySnapshot F))
    (s : HistorySnapshot F) (hmem : s ∈ xs)
    (hnd : (xs.map HistorySnapshot.stepIndex).Nodup) :
    (xs.find? fun x => x.stepIndex == s.stepIndex) = some s := by
  induction xs with
  | nil => cases hmem
  | cons x xs ih =>
      by_cases hx : x.stepIndex = s.stepIndex
      · rcases List.mem_cons.mp hmem with rfl | hmem'
        · simp
        · exfalso
          have hhead : x.stepIndex ∉ xs.map HistorySnapshot.stepIndex :=
            (List.nodup_cons.mp (by simpa using hnd)).1
          exact hhead (hx ▸ List.mem_map_of_mem _ hmem')
      · rcases List.mem_cons.mp hmem with rfl | hmem'
        · exact absurd rfl hx
        · rw [List.find?_cons_of_neg _ (by simpa using hx)]
          exact ih hmem' (List.nodup_cons.mp (by simpa using hnd)).2

omit [LinearOrderedCommRing F] in
/-- The best-candidate fold of `findLatestNotAfter` only ever returns the
accumulator or a scanned slot. -/
theorem latest_foldl_mem (t : ℕ) :
    ∀ (xs : List (HistorySnapshot F)) (acc : Option (HistorySnapshot F))
      (x : HistorySnapshot F),
      xs.foldl (latestStepCandidate t) acc = some x →
      acc = some x ∨ x ∈ xs := by
  intro xs
  induction xs with
  | nil => intro acc x h; exact Or.inl h
  | cons y ys ih =>
      intro acc x h
      rw [List.foldl_cons] at h
      rcases ih _ x h with hacc | hmem
      · unfold latestStepCandidate at hacc
        rcases acc with _ | b
        · by_cases hy : y.stepIndex ≤ t
          · rw [if_pos hy] at hacc
            simp only [] at hacc
            have : y = x := by simpa using hacc
            exact Or.inr (this ▸ List.mem_cons_self _ _)
          · rw [if_neg hy] at hacc
            exact absurd hacc (by simp)
        · by_cases hy : y.stepIndex ≤ t
          · rw [if_pos hy] at hacc
            dsimp only at hacc
            by_cases hb : b.stepIndex < y.stepIndex
            · rw [if_pos hb] at hacc
              have : y = x := by simpa using hacc
              exact Or.inr (this ▸ List.mem_cons_self _ _)
            · rw [if_neg hb] at hacc
              exact Or.inl hacc
          · rw [if_neg hy] at hacc
            exact Or.inl hacc
      · exact Or.inr (List.mem_cons_of_mem _ hmem)

/-- C7: pushing more than `maxLength` snapshots with pairwise distinct
step indices into a fresh history ring makes every evicted snapshot (in
particular the oldest) unretrievable through `find` and
`findLatestNotAfter`, while each of the newest `maxLength` snapshots
remains retrievable by its step index. -/
theorem history_ring_eviction (M : ℕ) (l : List (HistorySnapshot F))
    (hM : 1 ≤ M) (hlen : M < l.length)
    (hnd : (l.map HistorySnapshot.stepIndex).Nodup) :
    (∀ s ∈ l.reverse.take M,
      ((HistoryStore.create M : HistoryStore F).pushAll l).find s.stepIndex
        = some s) ∧
    (∀ s ∈ l.take (l.length - M),
      ((HistoryStore.create M : HistoryStore F).pushAll l).find s.stepIndex
          = none ∧
      ∀ t, ((HistoryStore.create M : HistoryStore F).pushAll
          l).findLatestNotAfter t ≠ some s) := by
  obtain ⟨g1, g2, g3, g4⟩ := pushAll_props M hM l
  have hscan_nd : ((l.reverse.take M).map HistorySnapshot.stepIndex).Nodup := by
    rw [List.map_take, List.map_reverse]
    exact (List.nodup_reverse.mpr hnd).sublist (List.take_sublist _ _)
  have hdisjoint : ((l.take (l.length - M)).map
        HistorySnapshot.stepIndex).Disjoint
      ((l.drop (l.length - M)).map HistorySnapshot.stepIndex) := by
    apply List.disjoint_of_nodup_append
    rw [← List.map_append, List.take_append_drop]
    exact hnd
  have hscan_drop : ∀ x ∈ l.reverse.take M, x ∈ l.drop (l.length - M) := by
    intro x hx
    rw [List.take_reverse] at hx
    exact List.mem_reverse.mp hx
  constructor
  · intro s hs
    show (_ : HistoryStore F).scan.find? _ = some s
    rw [g4]
    exact find?_stepIndex_of_mem _ s hs hscan_nd
  · intro s hs
    have hs_not_scan : ∀ x ∈ l.reverse.take M,
        x.stepIndex ≠ s.stepIndex := by
      intro x hx hcontra
      exact hdisjoint (List.mem_map_of_mem _ hs)
        (hcontra ▸ List.mem_map_of_mem _ (hscan_drop x hx))
    constructor
    · show (_ : HistoryStore F).scan.find? _ = none
      rw [g4]
      rw [List.find?_eq_none]
      intro x hx
      simpa using hs_not_scan x hx
    · intro t hcontra
      have hmem : s ∈ ((HistoryStore.create M : HistoryStore F).pushAll
          l).scan := by
        rcases latest_foldl_mem t _ none s hcontra with h | h
        · cases h
        · exact h
      rw [g4] at hmem
      exact hs_not_scan s hmem rfl

/-- After one push into a fresh ring of positive size, the only stored
snapshot is found by `findLatestNotAfter` for any target at or after its
step index. -/
theorem fresh_push_findLatest (M : ℕ) (hM : 1 ≤ M)
    (snap : HistorySnapshot F) (t : ℕ) (hle : snap.stepIndex ≤ t) :
    ((HistoryStore.create M : HistoryStore F).push snap).findLatestNotAfter t
      = some snap := by
  have hscan : ((HistoryStore.create M : HistoryStore F).push snap).scan
      = [snap] := by
    rw [scan_push _ _ hM (Nat.zero_le _) (le_refl _)]
    show (snap :: ([] : List (HistorySnapshot F))).take M = [snap]
    rw [List.take_cons (by omega), List.take_nil]
  unfold HistoryStore.findLatestNotAfter
  rw [hscan]
  show latestStepCandidate t none snap = some snap
  unfold latestStepCandidate
  rw [if_pos hle]

omit [LinearOrderedCommRing F] in
/-- `find` is the slot-index search composed with slot lookup: the
returned snapshot is the stored slot object itself. -/
theorem find_eq_findSlotIdx (h : HistoryStore F) (t : ℕ) :
    h.find t = (h.findSlotIdx t).map h.slots := by
  unfold HistoryStore.find HistoryStore.findSlotIdx HistoryStore.scan
  rw [show ((List.range h.length).map fun i => h.slots (h.scanIdx i))
      = ((List.range h.length).map h.scanIdx).map h.slots by
    rw [List.map_map]; rfl]
  rw [List.find?_map]
  rfl

omit [LinearOrderedCommRing F] in
/-- A first-match linear search is stable under updating the map at the
found key with a value on which the predicate agrees. -/
theorem find?_update_point (L : List ℕ) (slots : ℕ → HistorySnapshot F)
    (q : HistorySnapshot F → Bool) (r : ℕ) (v : HistorySnapshot F)
    (hv : q v = q (slots r)) :
    L.find? (fun x => q (slots x)) = some r →
    L.find? (fun x => q (Function.update slots r v x)) = some r := by
  induction L with
  | nil => intro h; simp at h
  | cons x L ih =>
      intro h
      by_cases hx : q (slots x)
      · rw [@List.find?_cons_of_pos _ (fun y => q (slots y)) x L hx] at h
        have hxr : x = r := by simpa using h
        subst hxr
        have hq : q (Function.update slots x v x) = true := by
          rw [Function.update_same, hv]
          exact hx
        exact @List.find?_cons_of_pos _
          (fun y => q (Function.update slots x v y)) x L hq
      · rw [@List.find?_cons_of_neg _ (fun y => q (slots y)) x L
          (by simpa using hx)] at h
        have hx' : ¬ ((fun y => q (Function.update slots r v y)) x = true) := by
          by_cases hxr : x = r
          · subst hxr
            show ¬ (q (Function.update slots x v x) = true)
            rw [Function.update_same, hv]
            simpa using hx
          · show ¬ (q (Function.update slots r v x) = true)
            rw [Function.update_noteq hxr]
            simpa using hx
        rw [@List.find?_cons_of_neg _
          (fun y => q (Function.update slots r v y)) x L hx']
        exact ih h

omit [LinearOrderedCommRing F] in
/-- C8 (amended): snapshots are content-copied on write, but `find`
returns the stored slot itself, by reference; a caller mutation of the
returned snapshot (here any mutation preserving the step index, i.e. one
that edits the buffers) therefore writes through to stored history, and a
subsequent `find` of the same step index returns the mutated contents,
not the originals. -/
theorem find_aliases_stored_slot (h : HistoryStore F) (t r : ℕ)
    (mutate : HistorySnapshot F → HistorySnapshot F)
    (hr : h.findSlotIdx t = some r)
    (hpres : (mutate (h.slots r)).stepIndex = (h.slots r).stepIndex) :
    h.find t = some (h.slots r) ∧
    (h.writeThroughFind t mutate).find t = some (mutate (h.slots r)) := by
  constructor
  · rw [find_eq_findSlotIdx, hr]
    rfl
  · have hstore : h.writeThroughFind t mutate
        = { h with slots := Function.update h.slots r (mutate (h.slots r)) } := by
      unfold HistoryStore.writeThroughFind
      rw [hr]
    have hq : ((mutate (h.slots r)).stepIndex == t)
        = ((h.slots r).stepIndex == t) := by
      rw [hpres]
    have hidx : ({ h with slots := Function.update h.slots r (mutate (h.slots r)) } : HistoryStore F).findSlotIdx t
        = some r := by
      unfold HistoryStore.findSlotIdx at hr ⊢
      exact find?_update_point _ _ (fun s => s.stepIndex == t) r _ hq hr
    rw [hstore, find_eq_findSlotIdx, hidx]
    show some (Function.update h.slots r (mutate (h.slots r)) r)
      = some (mutate (h.slots r))
    rw [Function.update_same]

omit [LinearOrderedCommRing F] in
theorem find_aliases_stored_slot_witness :
    storeC8.find 0 = some (storeC8.slots 0) ∧
    (storeC8.writeThroughFind 0 mutCount5).find 0
      = some (mutCount5 (storeC8.slots 0)) :=
  find_aliases_stored_slot storeC8 0 0 mutCount5 (by decide) (by decide)

/-- C8 (counterexample): the claim says a caller mutating a snapshot
returned by `find` never changes stored history and a re-read returns the
original contents.  On a concrete store, mutating the buffer data of the
returned snapshot makes the subsequent `find` of the same step index
return the mutated pool (count 5), not the original (count 1). -/
theorem find_mutation_changes_history :
    ((storeC8.writeThroughFind 0 mutCount5).find 0).map
        (fun s => s.pool.count) = some 5 ∧
    (storeC8.find 0).map (fun s => s.pool.count) = some 1 ∧
    (storeC8.writeThroughFind 0 mutCount5).find 0 ≠ storeC8.find 0 := by
  refine ⟨by decide, by decide, ?_⟩
  intro hcontra
  have h1 : ((storeC8.writeThroughFind 0 mutCount5).find 0).map
      (fun s => s.pool.count) = some 5 := by decide
  have h2 : (storeC8.find 0).map (fun s => s.pool.count) = some 1 := by
    decide
  rw [hcontra] at h1
  exact absurd (h1.symm.trans h2) (by decide)

theorem history_ring_eviction_witness :
    ((HistoryStore.create 1 : HistoryStore ℤ).pushAll
        [snapA, snapB]).find snapB.stepIndex = some snapB ∧
    ((HistoryStore.create 1 : HistoryStore ℤ).pushAll
        [snapA, snapB]).find snapA.stepIndex = none ∧
    ((HistoryStore.create 1 : HistoryStore ℤ).pushAll
        [snapA, snapB]).findLatestNotAfter 5 ≠ some snapA := by
  have h := history_ring_eviction 1 [snapA, snapB] (by decide) (by decide)
    (by decide)
  refine ⟨h.1 snapB (by simp), (h.2 snapA (by simp)).1,
    (h.2 snapA (by simp)).2 5⟩

end Hist

/-- C4: the `swaps` list of one step pipeline invocation exactly predicts
the final index of every surviving particle: applying the ordered
`(fromIndex, toIndex)` pairs to a shadow identity array over the
pre-removal arrangement maps each final live index to its pre-removal
row; and a pair is recorded exactly for those kills of dead particles
that were not at the last live row (the instrumented kill log contains
precisely the expired in-range rows, and `swaps` is its non-last subset
mapped to `(last, killed)`). -/
theorem swap_report_fidelity {F : Type} [LinearOrderedCommRing F]
    (context : Step.Context F) (pool : TimePool.ParticlePool F)
    (forces : List (Step.Force F)) (emitters : List (Step.Emitter F)) :
    (∀ j, j < (Step.run context pool forces emitters).1.count →
      (Step.run context pool forces emitters).1.rows j
        = (Step.preRemoval context pool forces emitters).rows
            (Step.applySwaps
              (Step.run context pool forces emitters).2.swaps id j)) ∧
    (Step.run context pool forces emitters).2.swaps
      = ((Step.runKills context pool forces emitters).filter
          fun e => e.i != e.last).map (fun e => (e.last, e.i)) ∧
    ∀ e ∈ Step.runKills context pool forces emitters,
      (e.row.lifetime
        ≤ context.time.current + context.time.delta - e.row.emissionTime)
      ∧ e.i ≤ e.last := by
  refine ⟨?_, ?_, ?_⟩
  · intro j hj
    have hM := Step.removeLoop_master
      (context.time.current + context.time.delta)
      (Step.preRemoval context pool forces emitters)
      ((Step.preRemoval context pool forces emitters).count
        + (Step.preRemoval context pool forces emitters).count)
      (Step.preRemoval context pool forces emitters)
      (Step.preRemoval context pool forces emitters).count
      []
      (le_refl _)
      (fun _ _ => rfl)
      (fun j hj1 hj2 => absurd hj2 (by omega))
      (le_refl _)
    exact hM.2.2.1 j hj
  · exact (Step.removeLoop_kills
      (context.time.current + context.time.delta)
      ((Step.preRemoval context pool forces emitters).count
        + (Step.preRemoval context pool forces emitters).count)
      (Step.preRemoval context pool forces emitters)
      (Step.preRemoval context pool forces emitters).count).2
  · intro e he
    exact Step.removeLoopEv_dead
      (context.time.current + context.time.delta)
      ((Step.preRemoval context pool forces emitters).count
        + (Step.preRemoval context pool forces emitters).count)
      (Step.preRemoval context pool forces emitters)
      (Step.preRemoval context pool forces emitters).count
      (le_refl _) e he

theorem swap_report_fidelity_witness :
    ((Step.run Sim.ctxStep0 Sim.poolDeadAlive [] []).1.rows 0
      = (Step.preRemoval Sim.ctxStep0 Sim.poolDeadAlive [] []).rows
          (Step.applySwaps
            (Step.run Sim.ctxStep0 Sim.poolDeadAlive [] []).2.swaps id 0)) ∧
    ((Step.run Sim.ctxStep0 Sim.poolDeadAlive [] []).2.swaps
      = ((Step.runKills Sim.ctxStep0 Sim.poolDeadAlive [] []).filter
          fun e => e.i != e.last).map fun e => (e.last, e.i)) :=
  ⟨(swap_report_fidelity Sim.ctxStep0 Sim.poolDeadAlive [] []).1 0
      (by decide),
   (swap_report_fidelity Sim.ctxStep0 Sim.poolDeadAlive [] []).2.1⟩

/-- C10: after one step pipeline invocation returns, no expired particle
survives: for every live index `i` of the returned pool,
`stepEndTime - emissionTime[i] < lifetime[i]`.  The backward removal scan
re-examines a slot refilled by a swap-remove before moving on, so
anything expired that lands in a killed slot is removed within the same
step. -/
theorem no_expired_particle_survives {F : Type} [LinearOrderedCommRing F]
    (context : Step.Context F) (pool : TimePool.ParticlePool F)
    (forces : List (Step.Force F)) (emitters : List (Step.Emitter F)) :
    ∀ i, i < (Step.run context pool forces emitters).1.count →
      context.time.current + context.time.delta
          - ((Step.run context pool forces emitters).1.rows i).emissionTime
        < ((Step.run context pool forces emitters).1.rows i).lifetime := by
  intro i hi
  have hM := Step.removeLoop_master
    (context.time.current + context.time.delta)
    (Step.preRemoval context pool forces emitters)
    ((Step.preRemoval context pool forces emitters).count
      + (Step.preRemoval context pool forces emitters).count)
    (Step.preRemoval context pool forces emitters)
    (Step.preRemoval context pool forces emitters).count
    []
    (le_refl _)
    (fun _ _ => rfl)
    (fun j hj1 hj2 => absurd hj2 (by omega))
    (le_refl _)
  exact not_le.mp (hM.2.2.2 i hi)

theorem no_expired_particle_survives_witness :
    Sim.ctxStep0.time.current + Sim.ctxStep0.time.delta
        - ((Step.run Sim.ctxStep0 (TimePool.ParticlePool.create 4) []
            Sim.emittersOne).1.rows 0).emissionTime
      < ((Step.run Sim.ctxStep0 (TimePool.ParticlePool.create 4) []
          Sim.emittersOne).1.rows 0).lifetime :=
  no_expired_particle_survives Sim.ctxStep0 (TimePool.ParticlePool.create 4)
    [] Sim.emittersOne 0 (by decide)

/-- C2: the claim states that the host RNG's
`setState({stepIndex: N, seed: baseSeed})` reseeds to the same internal
state as `setSeed(seedForStep(baseSeed, N+1))`.  The `setState`
implemented in `src/src/main.ts` installs `seedForStep(baseSeed, N)`
instead, which differs from `seedForStep(baseSeed, N+1)` (by the non-zero
golden-ratio constant) for every base seed and every `N`; the first two
conjuncts evaluate both sides at the failing input
`baseSeed = 0, N = 1`. -/
theorem setState_reseed_off_by_one :
    mainSetStateSeed 0 1 = 2654435769 ∧
    seedForStep 0 2 = 5308871538 ∧
    ∀ (base N : ℤ), mainSetStateSeed base N ≠ seedForStep base (N + 1) := by
  refine ⟨by decide, by decide, ?_⟩
  intro base N h
  simp only [mainSetStateSeed, seedForStep] at h
  omega

/-- C3: determinism of the step pipeline: two independent runs of `N`
steps of the pipeline (as the playing clock drives it: per-step context
and per-step reseed `seedForStep(baseSeed, k)`) from equal fixed initial
states, with equal force lists, emitter lists and base seed, produce
bit-identical particle buffers.  Every stateful input of the pipeline is
explicit in the embedding, so the run is a pure function of the listed
inputs. -/
theorem pipeline_two_runs_identical {F : Type} [LinearOrderedCommRing F]
    (s1 s2 : ℤ) (dt1 dt2 : F) (b1 b2 : Step.Bounds F)
    (f1 f2 : List (Step.Force F)) (e1 e2 : List (Step.Emitter F))
    (p1 p2 : TimePool.ParticlePool F) (N : ℕ)
    (hs : s1 = s2) (hdt : dt1 = dt2) (hb : b1 = b2) (hf : f1 = f2)
    (he : e1 = e2) (hp : p1 = p2) :
    Step.runSteps s1 dt1 b1 f1 e1 p1 N
      = Step.runSteps s2 dt2 b2 f2 e2 p2 N := by
  subst hs hdt hb hf he hp
  rfl

theorem pipeline_two_runs_identical_witness :
    Step.runSteps 0 1 ⟨100, 100⟩ [] [⟨fun _ => [Sim.emitOneDesc]⟩]
        (TimePool.ParticlePool.create 4) 3
      = Step.runSteps 0 1 ⟨100, 100⟩ [] [⟨fun _ => [Sim.emitOneDesc]⟩]
        (TimePool.ParticlePool.create 4) 3 :=
  pipeline_two_runs_identical 0 0 1 1 ⟨100, 100⟩ ⟨100, 100⟩ [] []
    [⟨fun _ => [Sim.emitOneDesc]⟩] [⟨fun _ => [Sim.emitOneDesc]⟩]
    (TimePool.ParticlePool.create 4) (TimePool.ParticlePool.create 4) 3
    rfl rfl rfl rfl rfl rfl

/-- One iteration of the tick loop below the target fails fast inside
`tick` at the `context` getter when the bounds are unconfigured. -/
theorem tickLoop_succ_no_bounds {F : Type} [LinearOrderedCommRing F]
    (fuel : ℕ) (s : Sim.Simulation F) (t : ℕ) (q : ℤ)
    (hlt : s.stepIndex < t) (hr : s.rngRef = some q)
    (hb : s.boundsRef = none) :
    Sim.Simulation.tickLoop (fuel + 1) s t = .error Sim.boundsErrorMsg := by
  rcases s with ⟨p, fo, em, hi, bs, rr, br, si, pa, fd, hin⟩
  dsimp only at hr hb hlt
  subst hr
  subst hb
  unfold Sim.Simulation.tickLoop
  rw [if_pos hlt]
  rfl

/-- `restoreSnapshot` with a configured RNG succeeds; the restored state
carries the snapshot's step index, the untouched bounds, and the
reinstalled per-step seed. -/
theorem restoreSnapshot_fields {F : Type} [LinearOrderedCommRing F]
    (s : Sim.Simulation F) (snap : Hist.HistorySnapshot F) (q : ℤ)
    (hr : s.rngRef = some q) :
    ∃ s3 : Sim.Simulation F, s.restoreSnapshot snap = .ok s3
      ∧ s3.stepIndex = snap.stepIndex ∧ s3.boundsRef = s.boundsRef
      ∧ s3.rngRef = some (seedForStep s.baseSeed (snap.stepIndex : ℤ)) := by
  rcases s with ⟨p, fo, em, hi, bs, rr, br, si, pa, fd, hin⟩
  dsimp only at hr
  subst hr
  exact ⟨_, rfl, rfl, rfl, rfl⟩

/-- C9 (counterexample): the claim requires `stepBackward(n)` (paused,
`n ≥ 1`) on a simulation whose RNG and bounds were never configured to
fail fast with a hard error; on the freshly constructed scenario
simulation it instead returns `.ok` with the state unchanged —
`stepBackward` consults only the history, and the empty history
short-circuits the call before any RNG or bounds access. -/
theorem stepBackward_unconfigured_silent :
    (Sim.Simulation.create Sim.cfgScenario).stepBackward 1
      = .ok (Sim.Simulation.create Sim.cfgScenario) := rfl

/-- C9 (amended): on every simulation missing the RNG, the bounds, or
both — freshly constructed, or with exactly one of `setRng`/`setBounds`
called — `update()` while playing and `stepForward(n)` (`n ≥ 1`, while
paused) fail fast with a hard error, as the claim states; the claim's
`stepBackward` clause must be weakened: `stepBackward(k)` returns
silently with the state unchanged instead of erroring.  (`maxHistory ≥ 1`
holds for every configuration the repo constructs.) -/
theorem unconfigured_calls_fail_fast {F : Type} [LinearOrderedCommRing F]
    (cfg : Sim.Config F) (r : ℤ) (b : Step.Bounds F)
    (s' : Sim.Simulation F) (n k : ℕ)
    (hn : 1 ≤ n) (hM : 1 ≤ cfg.maxHistory)
    (hs : s' = Sim.Simulation.create cfg
        ∨ s' = (Sim.Simulation.create cfg).setRngRef r
        ∨ s' = (Sim.Simulation.create cfg).setBoundsRef b) :
    (∃ e, (s'.play).update = .error e) ∧
    (∃ e, s'.stepForward n = .error e) ∧
    s'.stepBackward k = .ok s' := by
  obtain ⟨n', rfl⟩ : ∃ n', n = n' + 1 := ⟨n - 1, by omega⟩
  rcases hs with rfl | rfl | rfl
  · refine ⟨⟨Sim.rngErrorMsg, rfl⟩, ⟨Sim.rngErrorMsg, ?_⟩, rfl⟩
    exact congrArg (fun o : Option (Hist.HistorySnapshot F) =>
      match o with
      | some snap =>
          (((Sim.Simulation.create cfg).ensureInitialSnapshot).restoreSnapshot
              snap).bind fun s2 =>
            Sim.Simulation.tickLoop ((0 + (n' + 1)) - s2.stepIndex) s2
              (0 + (n' + 1))
      | none =>
          Sim.Simulation.tickLoop
            ((0 + (n' + 1))
              - ((Sim.Simulation.create cfg).ensureInitialSnapshot).stepIndex)
            ((Sim.Simulation.create cfg).ensureInitialSnapshot) (0 + (n' + 1)))
      (Hist.fresh_push_findLatest cfg.maxHistory hM
        ⟨0, (TimePool.ParticlePool.create cfg.capacity
              : TimePool.ParticlePool F).snapshot⟩
        (0 + (n' + 1)) (Nat.zero_le _))
  · refine ⟨⟨Sim.boundsErrorMsg, rfl⟩, ⟨Sim.boundsErrorMsg, ?_⟩, rfl⟩
    have h1 : ((Sim.Simulation.create cfg).setRngRef r).stepForward (n' + 1)
        = ((((Sim.Simulation.create cfg).setRngRef
            r).ensureInitialSnapshot).restoreSnapshot
              ⟨0, (TimePool.ParticlePool.create cfg.capacity
                    : TimePool.ParticlePool F).snapshot⟩).bind fun s2 =>
            Sim.Simulation.tickLoop ((0 + (n' + 1)) - s2.stepIndex) s2
              (0 + (n' + 1)) :=
      congrArg (fun o : Option (Hist.HistorySnapshot F) =>
        match o with
        | some snap =>
            ((((Sim.Simulation.create cfg).setRngRef
                r).ensureInitialSnapshot).restoreSnapshot snap).bind fun s2 =>
              Sim.Simulation.tickLoop ((0 + (n' + 1)) - s2.stepIndex) s2
                (0 + (n' + 1))
        | none =>
            Sim.Simulation.tickLoop
              ((0 + (n' + 1)) - (((Sim.Simulation.create cfg).setRngRef
                  r).ensureInitialSnapshot).stepIndex)
              (((Sim.Simulation.create cfg).setRngRef r).ensureInitialSnapshot)
              (0 + (n' + 1)))
        (Hist.fresh_push_findLatest cfg.maxHistory hM
          ⟨0, (TimePool.ParticlePool.create cfg.capacity
                : TimePool.ParticlePool F).snapshot⟩
          (0 + (n' + 1)) (Nat.zero_le _))
    obtain ⟨s3, hok, hsi, hbr, hrr⟩ := restoreSnapshot_fields
      (((Sim.Simulation.create cfg).setRngRef r).ensureInitialSnapshot)
      ⟨0, (TimePool.ParticlePool.create cfg.capacity
            : TimePool.ParticlePool F).snapshot⟩
      r rfl
    rw [h1, hok]
    show Sim.Simulation.tickLoop ((0 + (n' + 1)) - s3.stepIndex) s3
        (0 + (n' + 1)) = .error Sim.boundsErrorMsg
    have hsi0 : s3.stepIndex = 0 := hsi.trans rfl
    have hfuel : (0 + (n' + 1)) - s3.stepIndex = n' + 1 := by
      rw [hsi0]; omega
    rw [hfuel]
    exact tickLoop_succ_no_bounds n' s3 (0 + (n' + 1)) _
      (by rw [hsi0]; omega) hrr (hbr.trans rfl)
  · refine ⟨⟨Sim.rngErrorMsg, rfl⟩, ⟨Sim.rngErrorMsg, ?_⟩, rfl⟩
    exact congrArg (fun o : Option (Hist.HistorySnapshot F) =>
      match o with
      | some snap =>
          ((((Sim.Simulation.create cfg).setBoundsRef
              b).ensureInitialSnapshot).restoreSnapshot snap).bind fun s2 =>
            Sim.Simulation.tickLoop ((0 + (n' + 1)) - s2.stepIndex) s2
              (0 + (n' + 1))
      | none =>
          Sim.Simulation.tickLoop
            ((0 + (n' + 1)) - (((Sim.Simulation.create cfg).setBoundsRef
                b).ensureInitialSnapshot).stepIndex)
            (((Sim.Simulation.create cfg).setBoundsRef b).ensureInitialSnapshot)
            (0 + (n' + 1)))
      (Hist.fresh_push_findLatest cfg.maxHistory hM
        ⟨0, (TimePool.ParticlePool.create cfg.capacity
              : TimePool.ParticlePool F).snapshot⟩
        (0 + (n' + 1)) (Nat.zero_le _))

/-- C9 witness: the amended theorem evaluated on the fresh scenario
simulation with `n = k = 1`. -/
theorem unconfigured_calls_fail_fast_witness :
    (∃ e, ((Sim.Simulation.create Sim.cfgScenario).play).update
        = .error e) ∧
    (∃ e, (Sim.Simulation.create Sim.cfgScenario).stepForward 1
        = .error e) ∧
    (Sim.Simulation.create Sim.cfgScenario).stepBackward 1
      = .ok (Sim.Simulation.create Sim.cfgScenario) :=
  unconfigured_calls_fail_fast Sim.cfgScenario 0 ⟨100, 100⟩
    (Sim.Simulation.create Sim.cfgScenario) 1 1 (by decide) (by decide)
    (Or.inl rfl)

/-- C1: the claim states that running forward to step `N` (playing), then
`stepBackward(k)` and `stepForward(k)` while paused, restores the state
originally reached at step `N` bit for bit.  On the scenario
configuration with `N = 1, k = 1` the original run reaches step index 1
with one live particle, while the backward-forward replay reaches step
index 1 with two live particles: `restoreSnapshot` sets `stepIndex` to
the snapshot's key although the snapshot stores the state from after that
step, so the frontier step is recomputed once more on the already-stepped
state. -/
theorem replay_diverges_at_frontier :
    (Sim.origRun.toOption.map fun s => (s.stepIndex, s.particles.count))
      = some (1, 1) ∧
    (Sim.replayRun.toOption.map fun s => (s.stepIndex, s.particles.count))
      = some (1, 2) := by
  exact ⟨by decide, by decide⟩

end ParticleSim
